import Mathlib

/-!
Verification of the code generation backend (`src/codegen.cpp`) of an early
Zig compiler.  The C++ functions relevant to the claims are shallowly embedded
as executable Lean definitions: the LLVM builder is modelled as an explicit
state (a list of basic blocks, each holding the emitted instruction events, a
current insert block and a fresh-value counter), and each `ir_render_*`
function becomes a state-passing Lean function emitting events into that
state.  The module-level driver (`do_code_gen`, `generate_error_name_table`)
is modelled over an explicit list of module globals.
-/

namespace Codegen

/-! ## Lexical scopes and the safety predicate (`ir_want_debug_safety`) -/

/-- Scope variants (`ScopeId` in the source). -/
inductive ScopeId where
  | decls
  | fnDef
  | block
  | deferScope
  | varDecl
  | loop
  | cimport
  deriving DecidableEq, Repr

/-- One node of the lexical scope chain.  `safety_set_node` models whether the
C++ `safety_set_node` pointer is non-null (the flag is explicitly set);
`safety_off` is the stored boolean.  Both fields are only consulted for
`block` and `decls` scopes, as in the source. -/
structure ScopeNode where
  id : ScopeId
  safety_set_node : Bool
  safety_off : Bool
  deriving DecidableEq, Repr

/-- The scope-walking loop of `ir_want_debug_safety` (codegen.cpp:416-428):
walk from the instruction's scope up through the parents; a `Block` or
`Decls` scope with a set safety flag decides; otherwise default `true`. -/
def ir_want_debug_safety_walk : List ScopeNode → Bool
  | [] => true
  | scope :: parent =>
    match scope.id with
    | ScopeId.block =>
      if scope.safety_set_node then !scope.safety_off
      else ir_want_debug_safety_walk parent
    | ScopeId.decls =>
      if scope.safety_set_node then !scope.safety_off
      else ir_want_debug_safety_walk parent
    | _ => ir_want_debug_safety_walk parent

/-- `ir_want_debug_safety` (codegen.cpp:411-430).  The instruction is
represented by its scope chain (innermost first). -/
def ir_want_debug_safety (is_release_build : Bool) (scope : List ScopeNode) : Bool :=
  if is_release_build then false
  else ir_want_debug_safety_walk scope

/-- Spec-side definition, following the spec's words: the nearest enclosing
`Block` or `Decls` scope with a set safety flag, returning its `safety_off`
when found. -/
def nearestSafetySetting : List ScopeNode → Option Bool
  | [] => none
  | scope :: parent =>
    if (scope.id = ScopeId.block ∨ scope.id = ScopeId.decls) ∧ scope.safety_set_node then
      some scope.safety_off
    else nearestSafetySetting parent

/-! ## The LLVM builder model

`LLVMBuildXxx` calls are modelled as events appended to the current insert
block of a builder state; `LLVMAppendBasicBlock` appends a fresh block to the
function; `LLVMPositionBuilderAtEnd` moves the insert point.  Values
(`LLVMValueRef`) are identified by fresh natural-number ids. -/

/-- A byte buffer (`Buf` in the source). -/
abbrev Buf := List Nat

/-- An `LLVMValueRef`. -/
inductive Val where
  | reg (id : Nat)
  | constInt (n : Nat)
  | constNull
  | undef
  | globalRef (name : String)
  deriving DecidableEq, Repr

/-- `LLVMIntPredicate`. -/
inductive IntPredicate where
  | eq | ne | ugt | uge | ult | ule | sgt | sge | slt | sle
  deriving DecidableEq, Repr

/-- An emitted builder instruction.  `assignRaw` abstracts `gen_assign_raw`
(a store or struct memcpy into a destination slot, codegen.cpp:643-658);
`debugDeclare` abstracts `gen_var_debug_decl` (a `ZigLLVMInsertDeclareAtEnd`
into the current insert block, codegen.cpp:660-666). -/
inductive Event where
  | call (callee : String) (args : List Val)
  | callAsm (template : Buf) (constraints : Buf) (sideeffect : Bool) (args : List Val)
  | extractValue (agg : Val) (idx : Nat)
  | icmp (pred : IntPredicate) (lhs rhs : Val)
  | condBr (cond : Val) (thenBlock elseBlock : Nat)
  | br (dest : Nat)
  | unreach
  | addOp (lhs rhs : Val)
  | faddOp (lhs rhs : Val)
  | nswAdd (lhs rhs : Val)
  | nuwAdd (lhs rhs : Val)
  | store (v ptr : Val)
  | load (ptr : Val)
  | bitcast (v : Val)
  | assignRaw (target_ref : Val)
  | debugDeclare (var_ref : Val)
  | phiNode (pairs : List (Val × Option Nat))
  | gepInbounds (base : Val) (indices : List Val)
  deriving DecidableEq, Repr

/-- A backend basic block: its name hint and the emitted instructions, each
paired with the id of the value it defines. -/
structure BBlock where
  name : String
  insts : List (Nat × Event)
  deriving DecidableEq, Repr

/-- The builder state for one function: the function's basic blocks, the
current insert block (an index into `blocks`), and the next fresh value id. -/
structure Builder where
  blocks : List BBlock
  cur : Nat
  nextVal : Nat
  deriving DecidableEq, Repr

/-- Update the element at an index of a list (no-op when out of range). -/
def updateIdx : List α → Nat → (α → α) → List α
  | [], _, _ => []
  | a :: as, 0, f => f a :: as
  | a :: as, n + 1, f => a :: updateIdx as n f

/-- `LLVMBuildXxx`: append an event to the current insert block, returning the
fresh value. -/
def Builder.emit (b : Builder) (e : Event) : Val × Builder :=
  (Val.reg b.nextVal,
   { blocks := updateIdx b.blocks b.cur
       (fun blk => { blk with insts := blk.insts ++ [(b.nextVal, e)] }),
     cur := b.cur,
     nextVal := b.nextVal + 1 })

/-- `LLVMAppendBasicBlock`: append a fresh empty block, returning its handle. -/
def Builder.appendBlock (b : Builder) (name : String) : Nat × Builder :=
  (b.blocks.length, { b with blocks := b.blocks ++ [⟨name, []⟩] })

/-- `LLVMPositionBuilderAtEnd`. -/
def Builder.position (b : Builder) (blk : Nat) : Builder :=
  { b with cur := blk }

/-- The instruction list of block `i` (empty when out of range). -/
def Builder.blockInsts (b : Builder) (i : Nat) : List (Nat × Event) :=
  (b.blocks[i]?.map BBlock.insts).getD []

/-- Count the emitted events satisfying `p`, over all blocks. -/
def Builder.countEvents (b : Builder) (p : Event → Bool) : Nat :=
  (b.blocks.map (fun blk => blk.insts.countP (fun ie => p ie.2))).sum

/-- All emitted instructions of all blocks, in block order. -/
def Builder.allInsts (b : Builder) : List (Nat × Event) :=
  (b.blocks.map BBlock.insts).flatten

/-- Holds of a `call` event to the function named `name`. -/
def Event.isCallTo (name : String) : Event → Bool
  | Event.call callee _ => callee = name
  | _ => false

/-- Holds of any compare event. -/
def Event.isIcmp : Event → Bool
  | Event.icmp _ _ _ => true
  | _ => false

/-- Holds of any conditional-branch event. -/
def Event.isCondBr : Event → Bool
  | Event.condBr _ _ _ => true
  | _ => false

/-- Holds of any debug-declare event. -/
def Event.isDebugDeclare : Event → Bool
  | Event.debugDeclare _ => true
  | _ => false

/-- Holds of any in-bounds GEP event. -/
def Event.isGepInbounds : Event → Bool
  | Event.gepInbounds _ _ => true
  | _ => false

/-! ## Safety-check and overflow helpers (`gen_debug_safety_crash`,
`add_bounds_check`, `gen_overflow_op`) -/

/-- `gen_debug_safety_crash` (codegen.cpp:432-435): call `llvm.debugtrap`
(`g->trap_fn_val`, registered at codegen.cpp:3034) then emit `unreachable`. -/
def gen_debug_safety_crash (b : Builder) : Builder :=
  let b := (b.emit (Event.call "llvm.debugtrap" [])).2
  (b.emit Event.unreach).2

/-- The body of `add_bounds_check` from codegen.cpp:450 on, after the
null-pointer juggling: `lower_value` is known non-null here. -/
def add_bounds_check_go (target_val : Val) (lower_pred : IntPredicate)
    (lower_value : Val) (upper_pred : IntPredicate) (upper_value : Option Val)
    (b : Builder) : Builder :=
  let (bounds_check_fail_block, b) := b.appendBlock "BoundsCheckFail"
  let (ok_block, b) := b.appendBlock "BoundsCheckOk"
  let (lower_ok_block, b) :=
    match upper_value with
    | some _ => b.appendBlock "FirstBoundsCheckOk"
    | none => (ok_block, b)
  let (lower_ok_val, b) := b.emit (Event.icmp lower_pred target_val lower_value)
  let b := (b.emit (Event.condBr lower_ok_val lower_ok_block bounds_check_fail_block)).2
  let b := b.position bounds_check_fail_block
  let b := gen_debug_safety_crash b
  let b :=
    match upper_value with
    | some uv =>
      let b := b.position lower_ok_block
      let (upper_ok_val, b) := b.emit (Event.icmp upper_pred target_val uv)
      (b.emit (Event.condBr upper_ok_val ok_block bounds_check_fail_block)).2
    | none => b
  b.position ok_block

/-- `add_bounds_check` (codegen.cpp:437-468).  The two predicates are always
supplied; the two bound values are nullable.  When no bound is supplied
nothing is emitted; when only the upper bound is supplied it is moved into
the lower slot (codegen.cpp:444-448). -/
def add_bounds_check (target_val : Val) (lower_pred : IntPredicate)
    (lower_value : Option Val) (upper_pred : IntPredicate)
    (upper_value : Option Val) (b : Builder) : Builder :=
  match lower_value, upper_value with
  | none, none => b
  | none, some uv => add_bounds_check_go target_val upper_pred uv upper_pred none b
  | some lv, uv => add_bounds_check_go target_val lower_pred lv upper_pred uv b

/-- `AddSubMul` (the overflow-op selector). -/
inductive AddSubMul where
  | add | sub | mul
  deriving DecidableEq, Repr

/-- An integer type: signedness and bit count. -/
structure IntType where
  is_signed : Bool
  bits : Nat
  deriving DecidableEq, Repr

/-- The intrinsic name computed by `get_int_overflow_fn` /
`get_arithmetic_overflow_fn` (codegen.cpp:356-401):
`llvm.{s,u}{add,sub,mul}.with.overflow.i<bits>`. -/
def get_overflow_fn_name (ty : IntType) (op : AddSubMul) : String :=
  let signed_str :=
    match op, ty.is_signed with
    | AddSubMul.add, true => "sadd"
    | AddSubMul.add, false => "uadd"
    | AddSubMul.sub, true => "ssub"
    | AddSubMul.sub, false => "usub"
    | AddSubMul.mul, true => "smul"
    | AddSubMul.mul, false => "umul"
  "llvm." ++ signed_str ++ ".with.overflow.i" ++ toString ty.bits

/-- `gen_overflow_op` (codegen.cpp:553-573): call the overflow intrinsic,
extract element 0 (result) and element 1 (overflow bit), branch on the
overflow bit to a fresh fail block (trap + unreachable), continue in a fresh
ok block, and return the element-0 value. -/
def gen_overflow_op (ty : IntType) (op : AddSubMul) (val1 val2 : Val)
    (b : Builder) : Val × Builder :=
  let fn_name := get_overflow_fn_name ty op
  let (result_struct, b) := b.emit (Event.call fn_name [val1, val2])
  let (result, b) := b.emit (Event.extractValue result_struct 0)
  let (overflow_bit, b) := b.emit (Event.extractValue result_struct 1)
  let (fail_block, b) := b.appendBlock "OverflowFail"
  let (ok_block, b) := b.appendBlock "OverflowOk"
  let b := (b.emit (Event.condBr overflow_bit fail_block ok_block)).2
  let b := b.position fail_block
  let b := gen_debug_safety_crash b
  let b := b.position ok_block
  (result, b)

/-- The numeric result type of a binary arithmetic instruction. -/
inductive NumType where
  | float (bits : Nat)
  | int (ty : IntType)
  deriving DecidableEq, Repr

/-- The `IrBinOpAdd` / `IrBinOpAddWrap` arm of `ir_render_bin_op`
(codegen.cpp:857-874).  `want_debug_safety` is
`safety_check_on && ir_want_debug_safety(...)` (codegen.cpp:815-816). -/
def ir_render_bin_op_add (ty : NumType) (is_wrapping want_debug_safety : Bool)
    (op1_value op2_value : Val) (b : Builder) : Val × Builder :=
  match ty with
  | NumType.float _ => b.emit (Event.faddOp op1_value op2_value)
  | NumType.int ity =>
    if is_wrapping then
      b.emit (Event.addOp op1_value op2_value)
    else if want_debug_safety then
      gen_overflow_op ity AddSubMul.add op1_value op2_value b
    else if ity.is_signed then
      b.emit (Event.nswAdd op1_value op2_value)
    else
      b.emit (Event.nuwAdd op1_value op2_value)

/-! ## `DeclVar` lowering (`ir_render_decl_var`) -/

/-- `ConstValSpecial` in the source. -/
inductive ConstValSpecial where
  | runtime | static | zeroes | undef
  deriving DecidableEq, Repr

/-- The fields of `VariableTableEntry` consulted by `ir_render_decl_var`:
its storage slot, whether its type occupies storage (`type_has_bits`), its
reference count, and the store size / memcpy alignment of its type. -/
structure VariableModel where
  value_ref : Val
  type_has_bits : Bool
  ref_count : Nat
  size_bytes : Nat
  align_bytes : Nat
  deriving DecidableEq, Repr

/-- The memset intrinsic name registered at codegen.cpp:3089:
`llvm.memset.p0i8.i<pointer bits>`. -/
def memset_fn_name (pointer_size_bytes : Nat) : String :=
  "llvm.memset.p0i8.i" ++ toString (pointer_size_bytes * 8)

/-- `ir_render_decl_var` (codegen.cpp:1347-1401).  Returns no value.  The
variable is skipped when its type has no bits or its ref-count is zero; an
at-least-static initializer is assigned into the slot; otherwise, with safety
on the slot is memset to `0xaa` (or `0x00` for an explicitly-zeroed
`undefined`), and finally a debug-declare is emitted. -/
def ir_render_decl_var (is_release_build : Bool) (pointer_size_bytes : Nat)
    (var : VariableModel) (scope : List ScopeNode)
    (init_special : ConstValSpecial) (b : Builder) : Option Val × Builder :=
  if var.type_has_bits = false then (none, b)
  else if var.ref_count = 0 then (none, b)
  else
    let have_init_expr :=
      init_special = ConstValSpecial.runtime ∨ init_special = ConstValSpecial.static
    let want_zeroes := init_special = ConstValSpecial.zeroes
    let b :=
      if have_init_expr then
        (b.emit (Event.assignRaw var.value_ref)).2
      else
        let ignore_uninit := false
        let want_safe := ir_want_debug_safety is_release_build scope
        if ignore_uninit = false ∧ (want_safe = true ∨ want_zeroes) then
          let fill_char := Val.constInt (if want_zeroes then 0x00 else 0xaa)
          let (dest_ptr, b) := b.emit (Event.bitcast var.value_ref)
          let byte_count := Val.constInt var.size_bytes
          let align_in_bytes := Val.constInt var.align_bytes
          (b.emit (Event.call (memset_fn_name pointer_size_bytes)
            [dest_ptr, fill_char, byte_count, align_in_bytes, Val.constNull])).2
        else b
    (none, (b.emit (Event.debugDeclare var.value_ref)).2)

/-! ## `ErrName` lowering (`ir_render_err_name`) -/

/-- `ir_render_err_name` (codegen.cpp:1818-1838).  With only the implicit ok
entry in `g->error_decls`, emit a lone `unreachable` and produce no value;
otherwise optionally bounds-check `0 < err < error_decls.length` and GEP into
the error-name table. -/
def ir_render_err_name (is_release_build : Bool) (scope : List ScopeNode)
    (error_decls_len : Nat) (err_val : Val) (b : Builder) : Option Val × Builder :=
  if error_decls_len = 1 then
    (none, (b.emit Event.unreach).2)
  else
    let b :=
      if ir_want_debug_safety is_release_build scope then
        let zero := Val.constNull
        let end_val := Val.constInt error_decls_len
        add_bounds_check err_val IntPredicate.ne (some zero) IntPredicate.ult
          (some end_val) b
      else b
    let r := b.emit (Event.gepInbounds (Val.globalRef "err_name_table")
      [Val.constNull, err_val])
    (some r.1, r.2)

/-! ## Inline assembly (`ir_render_asm`) -/

/-- One entry of an asm expression's output list.  `is_return` models
`return_type != nullptr`. -/
structure AsmOutput where
  asm_symbolic_name : Buf
  constraint : Buf
  is_return : Bool
  deriving DecidableEq, Repr

/-- One entry of an asm expression's input list. -/
structure AsmInput where
  asm_symbolic_name : Buf
  constraint : Buf
  deriving DecidableEq, Repr

/-- `AsmTokenId`. -/
inductive AsmTokenId where
  | template | percent | var
  deriving DecidableEq, Repr

/-- An asm template token: byte range `[start, stop)` into the template. -/
structure AsmToken where
  id : AsmTokenId
  start : Nat
  stop : Nat
  deriving DecidableEq, Repr

/-- `AstNodeAsmExpr`: the parsed asm expression. -/
structure AsmExprModel where
  asm_template : Buf
  token_list : List AsmToken
  output_list : List AsmOutput
  input_list : List AsmInput
  clobber_list : List Buf
  is_volatile : Bool
  deriving DecidableEq, Repr

/-- `find_asm_index` (codegen.cpp:1569-1586): position of the token's
symbolic name (bytes `start+2 .. stop`) in the concatenated output+input
name list. -/
def find_asm_index (asm_expr : AsmExprModel) (tok : AsmToken) : Option Nat :=
  let name := (asm_expr.asm_template.drop (tok.start + 2)).take (tok.stop - tok.start - 2)
  ((asm_expr.output_list.map AsmOutput.asm_symbolic_name) ++
    (asm_expr.input_list.map AsmInput.asm_symbolic_name)).findIdx? (· == name)

/-- Decimal digits of a number, as template bytes (the `%zu` of
`buf_appendf`). -/
def natDigits (n : Nat) : Buf :=
  (Nat.repr n).data.map Char.toNat

/-- The token loop of `ir_render_asm` (codegen.cpp:1598-1620): template bytes
are copied with `$` escaped to `$$` (byte 36), a percent token appends `%`
(byte 37), and a variable token appends `$<index>`. -/
def render_asm_template (asm_expr : AsmExprModel) : Buf :=
  asm_expr.token_list.foldl (fun acc tok =>
    match tok.id with
    | AsmTokenId.template =>
      acc ++ (((asm_expr.asm_template.drop tok.start).take (tok.stop - tok.start)).flatMap
        (fun c => if c = 36 then [36, 36] else [c]))
    | AsmTokenId.percent => acc ++ [37]
    | AsmTokenId.var =>
      acc ++ [36] ++ natDigits ((find_asm_index asm_expr tok).getD 0)) []

/-- The constraint-string construction of `ir_render_asm`
(codegen.cpp:1637-1675): outputs as `=<c>` (returns) or `=*<c>` (indirect),
then inputs verbatim, then clobbers as `~{name}`, comma separated (byte 44;
`=` 61, `*` 42, `~` 126, braces 123/125). -/
def render_asm_constraints (asm_expr : AsmExprModel) : Buf :=
  let total_constraint_count := asm_expr.output_list.length +
    asm_expr.input_list.length + asm_expr.clobber_list.length
  let comma := fun (total_index : Nat) =>
    if total_index + 1 < total_constraint_count then [44] else ([] : Buf)
  let afterOutputs := (asm_expr.output_list.enum.foldl (fun acc io =>
    acc ++ (if io.2.is_return then [61] else [61, 42]) ++ io.2.constraint.drop 1 ++
      comma io.1) [])
  let afterInputs := (asm_expr.input_list.enum.foldl (fun acc ii =>
    acc ++ ii.2.constraint ++ comma (asm_expr.output_list.length + ii.1)) afterOutputs)
  (asm_expr.clobber_list.enum.foldl (fun acc ic =>
    acc ++ [126, 123] ++ ic.2 ++ [125] ++
      comma (asm_expr.output_list.length + asm_expr.input_list.length + ic.1)) afterInputs)

/-- `ir_render_asm` (codegen.cpp:1588-1690).  `output_vars` are the
`value_ref`s of the instruction's output variables (aligned with
`output_list`), `input_vals` the lowered input operand values.  The asm
expression is marked volatile (`sideeffect`) when explicitly marked or when
the output list is empty (codegen.cpp:1685). -/
def ir_render_asm (asm_expr : AsmExprModel) (return_count : Nat)
    (output_vars : List Val) (input_vals : List Val) (b : Builder) : Val × Builder :=
  let llvm_template := render_asm_template asm_expr
  let constraint_buf := render_asm_constraints asm_expr
  let param_values :=
    ((asm_expr.output_list.zip output_vars).filterMap (fun ov =>
      if ov.1.is_return then none else some ov.2)) ++ input_vals
  let _ := asm_expr.output_list.length + asm_expr.input_list.length - return_count
  let is_volatile := asm_expr.is_volatile || (asm_expr.output_list.length == 0)
  b.emit (Event.callAsm llvm_template constraint_buf is_volatile param_values)

/-! ## The per-function render loop (`ir_render`, `ir_render_phi`,
`build_all_basic_blocks`) -/

/-- The mini IR instruction set embedded for the render loop: checked integer
addition (which may append safety blocks mid-block) and phi.
`has_side_effects` models `ir_has_side_effects` (defined in `ir.cpp`, outside
this translation unit) as a per-instruction field. -/
inductive IrOp where
  | binOpAdd (ty : NumType) (is_wrapping safety_check_on : Bool)
      (scope : List ScopeNode) (op1 op2 : Val)
  | phi (incoming : List (Val × Nat))
  deriving DecidableEq, Repr

/-- An IR instruction: ref count, side-effect flag, opcode payload. -/
structure IrInstr where
  ref_count : Nat
  has_side_effects : Bool
  op : IrOp
  deriving DecidableEq, Repr

/-- An IR basic block: name hint and instruction list.  Its backend handles
(`llvm_block`, `llvm_exit_block`) live in the render state. -/
structure IrBasicBlock where
  name_hint : String
  instruction_list : List IrInstr
  deriving DecidableEq, Repr

/-- `ir_render_phi` (codegen.cpp:1796-1806): build a phi whose incoming
edges pair each value with the *exit* handle (`llvm_exit_block`) of its
incoming IR block.  `exits` is the table of exit handles of the blocks
rendered so far; an unrendered block's handle is still null (`none`). -/
def ir_render_phi (exits : List Nat) (incoming : List (Val × Nat))
    (b : Builder) : Val × Builder :=
  b.emit (Event.phiNode (incoming.map fun vj => (vj.1, exits[vj.2]?)))

/-- `ir_render_instruction` (codegen.cpp:1850-1931), restricted to the
embedded opcodes. -/
def ir_render_instruction (is_release_build : Bool) (exits : List Nat)
    (instr : IrInstr) (b : Builder) : Val × Builder :=
  match instr.op with
  | IrOp.binOpAdd ty is_wrapping safety_check_on scope op1 op2 =>
    let want := safety_check_on && ir_want_debug_safety is_release_build scope
    ir_render_bin_op_add ty is_wrapping want op1 op2 b
  | IrOp.phi incoming => ir_render_phi exits incoming b

/-- The inner instruction loop of `ir_render` (codegen.cpp:1942-1947):
instructions with ref-count zero and no side effects are skipped. -/
def ir_render_block (is_release_build : Bool) (exits : List Nat)
    (instrs : List IrInstr) (b : Builder) : Builder :=
  instrs.foldl (fun b instr =>
    if instr.ref_count = 0 ∧ instr.has_side_effects = false then b
    else (ir_render_instruction is_release_build exits instr b).2) b

/-- `build_all_basic_blocks` (codegen.cpp:2281-2290): append one backend
block per IR block (recording the `llvm_block` handles) and position at the
entry block's handle. -/
def build_all_basic_blocks_loop :
    List IrBasicBlock → Builder → List Nat → Builder × List Nat
  | [], b, handles => (b, handles)
  | bb :: rest, b, handles =>
    let ap := b.appendBlock bb.name_hint
    build_all_basic_blocks_loop rest ap.2 (handles ++ [ap.1])

def build_all_basic_blocks (bbs : List IrBasicBlock) (b : Builder) :
    Builder × List Nat :=
  let r := build_all_basic_blocks_loop bbs b []
  (match r.2[0]? with
   | some h => r.1.position h
   | none => r.1, r.2)

/-- The outer block loop of `ir_render` (codegen.cpp:1933-1950): position at
the block's `llvm_block` handle, render its instructions, then record the
builder's current block as the IR block's `llvm_exit_block`. -/
def ir_render_loop (is_release_build : Bool) :
    List (IrBasicBlock × Nat) → Builder → List Nat → Builder × List Nat
  | [], b, exits => (b, exits)
  | (bb, h) :: rest, b, exits =>
    let b := b.position h
    let b := ir_render_block is_release_build exits bb.instruction_list b
    ir_render_loop is_release_build rest b (exits ++ [b.cur])

/-- `ir_render` for one function, starting from the fresh function builder
(the LLVM function value has no basic blocks before
`build_all_basic_blocks`).  Returns the final builder and the exit-handle
table. -/
def ir_render (is_release_build : Bool) (bbs : List IrBasicBlock) :
    Builder × List Nat :=
  let r := build_all_basic_blocks bbs ⟨[], 0, 0⟩
  ir_render_loop is_release_build (bbs.zip r.2) r.1 []

/-! ## Module-level driver (`generate_error_name_table`, `do_code_gen`) -/

/-- Global linkage as set by the modelled paths. -/
inductive Linkage where
  | privateLinkage | internalLinkage | externalLinkage
  deriving DecidableEq, Repr

/-- One element of the error-name table. -/
inductive ErrTableElem where
  | undefElem
  | slice (ptr_global : Nat) (len : Nat)
  deriving DecidableEq, Repr

/-- Initializers of the modelled module globals. -/
inductive GlobalInit where
  | strInit (bytes : Buf)
  | errTable (elems : List ErrTableElem)
  | testFnArray (count : Nat)
  | testFnSlice (array_global : Nat) (count : Nat)
  deriving DecidableEq, Repr

/-- A module global (`LLVMAddGlobal` plus the attributes set on it). -/
structure GlobalVar where
  name : String
  init : GlobalInit
  linkage : Linkage
  is_const : Bool
  unnamed_addr : Bool
  deriving DecidableEq, Repr

/-- The loop of `generate_error_name_table` (codegen.cpp:2253-2270): for each
declared error (entries 1 onward), add an unnamed private constant
unnamed-addr string global with the name bytes, and append a `{ptr, len}`
element referencing it. -/
def generate_error_name_table_loop :
    List (Option Buf) → List GlobalVar → List ErrTableElem →
      List GlobalVar × List ErrTableElem
  | [], module, values => (module, values)
  | decl :: rest, module, values =>
    let name := decl.getD []
    let str_global := module.length
    generate_error_name_table_loop rest
      (module ++ [⟨"", GlobalInit.strInit name, Linkage.privateLinkage, true, true⟩])
      (values ++ [ErrTableElem.slice str_global name.length])

/-- `generate_error_name_table` (codegen.cpp:2241-2279).  `error_decls`
models `g->error_decls` (entry 0 is the null "ok" entry appended at
codegen.cpp:69).  Slot 0 of the table is undef (the ok tag); the table
global is named `err_name_table`, private, constant, unnamed-addr.  Returns
the extended module and the index of the table global (none when not
generated). -/
def generate_error_name_table (generate_flag : Bool)
    (error_decls : List (Option Buf)) (module : List GlobalVar) :
    List GlobalVar × Option Nat :=
  if generate_flag = false ∨ error_decls.length = 1 then
    (module, none)
  else
    let r := generate_error_name_table_loop (error_decls.drop 1) module
      [ErrTableElem.undefElem]
    (r.1 ++ [⟨"err_name_table", GlobalInit.errTable r.2, Linkage.privateLinkage,
        true, true⟩],
     some r.1.length)

/-- Spec-side: the expected table elements for declared-error name lengths,
with string globals starting at index `base`. -/
def errSlices (base : Nat) : List Nat → List ErrTableElem
  | [] => []
  | n :: rest => ErrTableElem.slice base n :: errSlices (base + 1) rest

/-- The module state threaded through `do_code_gen`: the globals added so
far and how many function definitions have been generated. -/
structure ModuleState where
  globals : List GlobalVar
  fn_defs_generated : Nat
  deriving DecidableEq, Repr

/-- A process exit (`exit(status)`) with the stderr output printed before it
and the module state at that moment. -/
structure ProcessExit where
  status : Nat
  stderr_output : String
  state_at_exit : ModuleState
  deriving DecidableEq, Repr

/-- The tail of `do_code_gen` from the test-list section on
(codegen.cpp:2433-2578): in a test build with no collected tests, print
`No tests to run.` to stderr and exit with status 0; otherwise emit the
internal test-fn array and the external `zig_test_fn_list` slice global, and
then generate the function definitions (abstracted to a count). -/
def do_code_gen_tail (is_test_build : Bool) (test_fn_count fn_def_count : Nat)
    (st : ModuleState) : Except ProcessExit ModuleState :=
  let afterTests : Except ProcessExit ModuleState :=
    if is_test_build then
      if test_fn_count = 0 then
        Except.error ⟨0, "No tests to run.\n", st⟩
      else
        let arr := st.globals.length
        Except.ok ⟨st.globals ++
            [⟨"", GlobalInit.testFnArray test_fn_count, Linkage.internalLinkage,
              true, true⟩,
             ⟨"zig_test_fn_list", GlobalInit.testFnSlice arr test_fn_count,
              Linkage.externalLinkage, true, true⟩],
          st.fn_defs_generated⟩
    else Except.ok st
  match afterTests with
  | Except.error e => Except.error e
  | Except.ok st2 => Except.ok ⟨st2.globals, st2.fn_defs_generated + fn_def_count⟩

/-! ## Darwin native target selection (`init_darwin_native`) -/

/-- The architectures relevant to `init_darwin_native` plus representative
others (the source's `ZigLLVM_*` architecture enum). -/
inductive ZigArch where
  | arm
  | aarch64
  | thumb
  | x86
  | x86_64
  | powerpc
  deriving DecidableEq, Repr

/-- `init_darwin_native` (codegen.cpp:25-46), as a pure function from the two
environment variables (None = unset) and the target architecture to the pair
`(mmacosx_version_min, mios_version_min)`. -/
def init_darwin_native (arch : ZigArch) (osx_env ios_env : Option String) :
    Option String × Option String :=
  let targets : Option String × Option String :=
    match osx_env, ios_env with
    | some o, some i =>
      if arch = ZigArch.arm ∨ arch = ZigArch.aarch64 ∨ arch = ZigArch.thumb then
        (none, some i)
      else
        (some o, none)
    | o, i => (o, i)
  match targets with
  | (some o, _) => (some o, none)
  | (none, some i) => (none, some i)
  | (none, none) => (none, none)

end Codegen

/-! ## General lemmas about the builder model -/

namespace Codegen

theorem ir_want_debug_safety_walk_eq (chain : List ScopeNode) :
    ir_want_debug_safety_walk chain =
      match nearestSafetySetting chain with
      | some off => !off
      | none => true := by
  induction chain with
  | nil => rfl
  | cons scope parent ih =>
    cases hid : scope.id <;>
      simp [ir_want_debug_safety_walk, nearestSafetySetting, hid, ih] <;>
      cases hset : scope.safety_set_node <;> simp

@[simp] theorem length_updateIdx (l : List α) (i : Nat) (f : α → α) :
    (updateIdx l i f).length = l.length := by
  induction l generalizing i with
  | nil => rfl
  | cons a as ih => cases i <;> simp [updateIdx, ih]

theorem getElem?_updateIdx_self (l : List α) (i : Nat) (f : α → α) :
    (updateIdx l i f)[i]? = l[i]?.map f := by
  induction l generalizing i with
  | nil => simp [updateIdx]
  | cons a as ih => cases i <;> simp [updateIdx, ih]

theorem getElem?_updateIdx_ne (l : List α) (i j : Nat) (f : α → α) (h : i ≠ j) :
    (updateIdx l i f)[j]? = l[j]? := by
  induction l generalizing i j with
  | nil => rfl
  | cons a as ih =>
    cases i with
    | zero => cases j with
      | zero => exact absurd rfl h
      | succ j => simp [updateIdx]
    | succ i => cases j with
      | zero => simp [updateIdx]
      | succ j => simpa [updateIdx] using ih i j (by omega)

theorem updateIdx_append_left (l l' : List α) (i : Nat) (f : α → α) (h : i < l.length) :
    updateIdx (l ++ l') i f = updateIdx l i f ++ l' := by
  induction l generalizing i with
  | nil => simp at h
  | cons a as ih =>
    cases i with
    | zero => simp [updateIdx]
    | succ i => simpa [updateIdx] using ih i (by simpa using Nat.lt_of_succ_lt_succ h)

theorem updateIdx_append_right (l l' : List α) (k : Nat) (f : α → α) :
    updateIdx (l ++ l') (l.length + k) f = l ++ updateIdx l' k f := by
  induction l with
  | nil => simp
  | cons a as ih => simpa [updateIdx, Nat.succ_add] using ih

theorem updateIdx_append_right' (l l' : List α) (i k : Nat) (f : α → α)
    (hik : i = l.length + k) :
    updateIdx (l ++ l') i f = l ++ updateIdx l' k f := by
  subst hik
  exact updateIdx_append_right l l' k f

theorem updateIdx_updateIdx (l : List α) (i : Nat) (f g : α → α) :
    updateIdx (updateIdx l i f) i g = updateIdx l i (fun a => g (f a)) := by
  induction l generalizing i with
  | nil => rfl
  | cons a as ih => cases i <;> simp [updateIdx, ih]

@[simp] theorem emit_fst (b : Builder) (e : Event) :
    (b.emit e).1 = Val.reg b.nextVal := rfl

@[simp] theorem emit_cur (b : Builder) (e : Event) : (b.emit e).2.cur = b.cur := rfl

@[simp] theorem emit_nextVal (b : Builder) (e : Event) :
    (b.emit e).2.nextVal = b.nextVal + 1 := rfl

@[simp] theorem emit_blocks_length (b : Builder) (e : Event) :
    (b.emit e).2.blocks.length = b.blocks.length := by
  simp [Builder.emit]

@[simp] theorem appendBlock_fst (b : Builder) (n : String) :
    (b.appendBlock n).1 = b.blocks.length := rfl

@[simp] theorem appendBlock_cur (b : Builder) (n : String) :
    (b.appendBlock n).2.cur = b.cur := rfl

@[simp] theorem appendBlock_nextVal (b : Builder) (n : String) :
    (b.appendBlock n).2.nextVal = b.nextVal := rfl

@[simp] theorem appendBlock_blocks_length (b : Builder) (n : String) :
    (b.appendBlock n).2.blocks.length = b.blocks.length + 1 := by
  simp [Builder.appendBlock]

@[simp] theorem position_cur (b : Builder) (i : Nat) : (b.position i).cur = i := rfl

@[simp] theorem position_nextVal (b : Builder) (i : Nat) :
    (b.position i).nextVal = b.nextVal := rfl

@[simp] theorem position_blocks (b : Builder) (i : Nat) :
    (b.position i).blocks = b.blocks := rfl

theorem blockInsts_emit_self (b : Builder) (e : Event) (h : b.cur < b.blocks.length) :
    (b.emit e).2.blockInsts b.cur = b.blockInsts b.cur ++ [(b.nextVal, e)] := by
  have hsome : b.blocks[b.cur]? = some b.blocks[b.cur] := List.getElem?_eq_getElem h
  simp [Builder.emit, Builder.blockInsts, getElem?_updateIdx_self, hsome]

theorem blockInsts_emit_ne (b : Builder) (e : Event) (j : Nat) (h : b.cur ≠ j) :
    (b.emit e).2.blockInsts j = b.blockInsts j := by
  simp [Builder.emit, Builder.blockInsts, getElem?_updateIdx_ne _ _ _ _ h]

theorem blockInsts_appendBlock_lt (b : Builder) (n : String) (j : Nat)
    (h : j < b.blocks.length) :
    (b.appendBlock n).2.blockInsts j = b.blockInsts j := by
  simp [Builder.appendBlock, Builder.blockInsts, List.getElem?_append_left h]

theorem blockInsts_appendBlock_self (b : Builder) (n : String) :
    (b.appendBlock n).2.blockInsts b.blocks.length = [] := by
  simp [Builder.appendBlock, Builder.blockInsts]

theorem blockInsts_position (b : Builder) (i j : Nat) :
    (b.position i).blockInsts j = b.blockInsts j := rfl

theorem sum_map_updateIdx_add (l : List α) (i : Nat) (f : α → α) (g : α → Nat) (c : Nat)
    (hf : ∀ a, g (f a) = g a + c) (h : i < l.length) :
    ((updateIdx l i f).map g).sum = (l.map g).sum + c := by
  induction l generalizing i with
  | nil => simp at h
  | cons a as ih =>
    cases i with
    | zero => simp [updateIdx, hf a]; omega
    | succ i =>
      have := ih i (by simpa using Nat.lt_of_succ_lt_succ h)
      simp [updateIdx, this]; omega

theorem countEvents_emit (b : Builder) (e : Event) (p : Event → Bool)
    (h : b.cur < b.blocks.length) :
    (b.emit e).2.countEvents p = b.countEvents p + (if p e then 1 else 0) := by
  simp only [Builder.emit, Builder.countEvents]
  refine sum_map_updateIdx_add _ _ _ _ _ (fun blk => ?_) h
  cases hp : p e <;>
    simp [List.countP_append, List.countP_cons, List.countP_nil, hp]

theorem countEvents_appendBlock (b : Builder) (n : String) (p : Event → Bool) :
    (b.appendBlock n).2.countEvents p = b.countEvents p := by
  simp [Builder.appendBlock, Builder.countEvents]

theorem countEvents_position (b : Builder) (i : Nat) (p : Event → Bool) :
    (b.position i).countEvents p = b.countEvents p := rfl

theorem blockInsts_mk (blocks : List BBlock) (c n i : Nat) :
    Builder.blockInsts ⟨blocks, c, n⟩ i = (blocks[i]?.map BBlock.insts).getD [] := rfl

theorem blockInsts_update_append (blocks extra : List BBlock) (c n i : Nat)
    (evs : List (Nat × Event)) (h : i < blocks.length) :
    Builder.blockInsts ⟨updateIdx blocks i
        (fun blk => { blk with insts := blk.insts ++ evs }) ++ extra, c, n⟩ i =
      (blocks[i]?.map BBlock.insts).getD [] ++ evs := by
  have hsome : blocks[i]? = some blocks[i] := List.getElem?_eq_getElem h
  have h2 : i < (updateIdx blocks i
      (fun blk => { blk with insts := blk.insts ++ evs })).length := by
    simpa using h
  rw [blockInsts_mk, List.getElem?_append_left h2, getElem?_updateIdx_self, hsome]
  simp

theorem blockInsts_append_extra (blocks extra : List BBlock) (c n i k : Nat)
    (hk : i = blocks.length + k) :
    Builder.blockInsts ⟨blocks ++ extra, c, n⟩ i =
      (extra[k]?.map BBlock.insts).getD [] := by
  subst hk
  simp [Builder.blockInsts, List.getElem?_append_right (Nat.le_add_right _ _)]

theorem countEvents_update_append (blocks extra : List BBlock) (c n i : Nat)
    (evs : List (Nat × Event)) (p : Event → Bool) (h : i < blocks.length) :
    Builder.countEvents ⟨updateIdx blocks i
        (fun blk => { blk with insts := blk.insts ++ evs }) ++ extra, c, n⟩ p =
      (blocks.map (fun blk => blk.insts.countP (fun ie => p ie.2))).sum +
        (evs.countP fun ie => p ie.2) +
        ((extra.map fun blk => blk.insts.countP fun ie => p ie.2).sum) := by
  simp only [Builder.countEvents, List.map_append, List.sum_append]
  rw [sum_map_updateIdx_add _ _ _ _ (evs.countP fun ie => p ie.2)
    (fun blk => by simp [List.countP_append]) h]

theorem blockInsts_update (blocks : List BBlock) (c n i : Nat)
    (evs : List (Nat × Event)) (h : i < blocks.length) :
    Builder.blockInsts ⟨updateIdx blocks i
        (fun blk => { blk with insts := blk.insts ++ evs }), c, n⟩ i =
      (blocks[i]?.map BBlock.insts).getD [] ++ evs := by
  have hsome : blocks[i]? = some blocks[i] := List.getElem?_eq_getElem h
  rw [blockInsts_mk, getElem?_updateIdx_self, hsome]
  simp

theorem countEvents_update (blocks : List BBlock) (c n i : Nat)
    (evs : List (Nat × Event)) (p : Event → Bool) (h : i < blocks.length) :
    Builder.countEvents ⟨updateIdx blocks i
        (fun blk => { blk with insts := blk.insts ++ evs }), c, n⟩ p =
      (blocks.map (fun blk => blk.insts.countP (fun ie => p ie.2))).sum +
        (evs.countP fun ie => p ie.2) := by
  simp only [Builder.countEvents]
  rw [sum_map_updateIdx_add _ _ _ _ (evs.countP fun ie => p ie.2)
    (fun blk => by simp [List.countP_append]) h]

theorem countEvents_mk (blocks : List BBlock) (c n : Nat) (p : Event → Bool) :
    Builder.countEvents ⟨blocks, c, n⟩ p =
      (blocks.map (fun blk => blk.insts.countP (fun ie => p ie.2))).sum := rfl

theorem errSlices_length (base : Nat) (lens : List Nat) :
    (errSlices base lens).length = lens.length := by
  induction lens generalizing base with
  | nil => rfl
  | cons n rest ih => simp [errSlices, ih]

theorem errSlices_getElem? (base : Nat) (lens : List Nat) (i : Nat) :
    (errSlices base lens)[i]? =
      lens[i]?.map (fun n => ErrTableElem.slice (base + i) n) := by
  induction lens generalizing base i with
  | nil => simp [errSlices]
  | cons n rest ih =>
    cases i with
    | zero => simp [errSlices]
    | succ i =>
      have harith : base + 1 + i = base + (i + 1) := by omega
      simp [errSlices, ih (base + 1) i, harith]

theorem generate_error_name_table_loop_eq (decls : List (Option Buf))
    (mod0 : List GlobalVar) (vals0 : List ErrTableElem) :
    generate_error_name_table_loop decls mod0 vals0 =
      (mod0 ++ decls.map (fun d =>
         ⟨"", GlobalInit.strInit (d.getD []), Linkage.privateLinkage, true, true⟩),
       vals0 ++ errSlices mod0.length (decls.map (fun d => (d.getD []).length))) := by
  induction decls generalizing mod0 vals0 with
  | nil => simp [generate_error_name_table_loop, errSlices]
  | cons d rest ih =>
    simp [generate_error_name_table_loop, ih, errSlices, List.append_assoc]

/-! ## Closed forms of the safety helpers -/

theorem gen_debug_safety_crash_eq (b : Builder) :
    gen_debug_safety_crash b =
      { blocks := updateIdx b.blocks b.cur (fun blk =>
          { blk with insts := blk.insts ++
              [(b.nextVal, Event.call "llvm.debugtrap" []),
               (b.nextVal + 1, Event.unreach)] }),
        cur := b.cur,
        nextVal := b.nextVal + 2 } := by
  simp only [gen_debug_safety_crash, Builder.emit, updateIdx_updateIdx]
  congr 1
  exact congrArg (updateIdx b.blocks b.cur) (funext fun blk => by simp)

theorem gen_overflow_op_eq (ty : IntType) (op : AddSubMul) (v1 v2 : Val)
    (b : Builder) (h : b.cur < b.blocks.length) :
    gen_overflow_op ty op v1 v2 b =
      (Val.reg (b.nextVal + 1),
       { blocks := updateIdx b.blocks b.cur (fun blk =>
           { blk with insts := blk.insts ++
               [(b.nextVal, Event.call (get_overflow_fn_name ty op) [v1, v2]),
                (b.nextVal + 1, Event.extractValue (Val.reg b.nextVal) 0),
                (b.nextVal + 2, Event.extractValue (Val.reg b.nextVal) 1),
                (b.nextVal + 3, Event.condBr (Val.reg (b.nextVal + 2))
                  b.blocks.length (b.blocks.length + 1))] }) ++
           [⟨"OverflowFail", [(b.nextVal + 4, Event.call "llvm.debugtrap" []),
                              (b.nextVal + 5, Event.unreach)]⟩,
            ⟨"OverflowOk", []⟩],
         cur := b.blocks.length + 1,
         nextVal := b.nextVal + 6 }) := by
  simp [gen_overflow_op, gen_debug_safety_crash, Builder.emit,
    Builder.appendBlock, Builder.position, updateIdx_updateIdx,
    List.append_assoc, Nat.add_assoc, Prod.mk.injEq, Builder.mk.injEq]
  rw [updateIdx_append_left _ _ _ _ (by simpa using h)]
  rw [updateIdx_append_right' _ _ _ 0 _ (by simp)]
  rw [updateIdx_updateIdx]
  congr 1
  exact congrArg (updateIdx b.blocks b.cur) (funext fun blk => by simp)

theorem add_bounds_check_go_none_eq (t lv : Val) (lp up : IntPredicate) (b : Builder)
    (h : b.cur < b.blocks.length) :
    add_bounds_check_go t lp lv up none b =
      { blocks := updateIdx b.blocks b.cur (fun blk =>
          { blk with insts := blk.insts ++
              [(b.nextVal, Event.icmp lp t lv),
               (b.nextVal + 1, Event.condBr (Val.reg b.nextVal)
                 (b.blocks.length + 1) b.blocks.length)] }) ++
          [⟨"BoundsCheckFail", [(b.nextVal + 2, Event.call "llvm.debugtrap" []),
                                (b.nextVal + 3, Event.unreach)]⟩,
           ⟨"BoundsCheckOk", []⟩],
        cur := b.blocks.length + 1,
        nextVal := b.nextVal + 4 } := by
  simp [add_bounds_check_go, gen_debug_safety_crash, Builder.emit,
    Builder.appendBlock, Builder.position, updateIdx_updateIdx,
    List.append_assoc, Nat.add_assoc, Builder.mk.injEq]
  rw [updateIdx_append_left _ _ _ _ (by simpa using h)]
  rw [updateIdx_append_right' _ _ _ 0 _ (by simp)]
  simp [updateIdx]

theorem add_bounds_check_go_some_eq (t lv uv : Val) (lp up : IntPredicate)
    (b : Builder) (h : b.cur < b.blocks.length) :
    add_bounds_check_go t lp lv up (some uv) b =
      { blocks := updateIdx b.blocks b.cur (fun blk =>
          { blk with insts := blk.insts ++
              [(b.nextVal, Event.icmp lp t lv),
               (b.nextVal + 1, Event.condBr (Val.reg b.nextVal)
                 (b.blocks.length + 2) b.blocks.length)] }) ++
          [⟨"BoundsCheckFail", [(b.nextVal + 2, Event.call "llvm.debugtrap" []),
                                (b.nextVal + 3, Event.unreach)]⟩,
           ⟨"BoundsCheckOk", []⟩,
           ⟨"FirstBoundsCheckOk", [(b.nextVal + 4, Event.icmp up t uv),
                                   (b.nextVal + 5, Event.condBr (Val.reg (b.nextVal + 4))
                                     (b.blocks.length + 1) b.blocks.length)]⟩],
        cur := b.blocks.length + 1,
        nextVal := b.nextVal + 6 } := by
  simp [add_bounds_check_go, gen_debug_safety_crash, Builder.emit,
    Builder.appendBlock, Builder.position, updateIdx_updateIdx,
    List.append_assoc, Nat.add_assoc, Builder.mk.injEq]
  rw [updateIdx_append_left _ _ _ _ (by simpa using h)]
  rw [updateIdx_append_right' _ _ _ 0 _ (by simp)]
  rw [updateIdx_append_right' _ _ _ 2 _ (by simp)]
  simp [updateIdx]

/-! ## Monotonicity of the emitted-instruction set -/

theorem mem_flatten_updateIdx_insts (blocks : List BBlock) (i : Nat)
    (evs : List (Nat × Event)) (x : Nat × Event)
    (hx : x ∈ (blocks.map BBlock.insts).flatten) :
    x ∈ ((updateIdx blocks i
      (fun blk => { blk with insts := blk.insts ++ evs })).map BBlock.insts).flatten := by
  induction blocks generalizing i with
  | nil => simpa using hx
  | cons a as ih =>
    cases i with
    | zero =>
      simp only [updateIdx, List.map_cons, List.flatten_cons, List.mem_append] at hx ⊢
      rcases hx with h1 | h2
      · exact Or.inl (Or.inl h1)
      · exact Or.inr h2
    | succ i =>
      simp only [updateIdx, List.map_cons, List.flatten_cons, List.mem_append] at hx ⊢
      rcases hx with h1 | h2
      · exact Or.inl h1
      · exact Or.inr (ih i h2)

theorem mem_flatten_append_blocks (blocks extra : List BBlock) (x : Nat × Event)
    (hx : x ∈ (blocks.map BBlock.insts).flatten) :
    x ∈ ((blocks ++ extra).map BBlock.insts).flatten := by
  rw [List.map_append, List.flatten_append]
  exact List.mem_append_left _ hx

theorem allInsts_emit_mono (b : Builder) (e : Event) (x : Nat × Event)
    (hx : x ∈ b.allInsts) : x ∈ (b.emit e).2.allInsts :=
  mem_flatten_updateIdx_insts b.blocks b.cur [(b.nextVal, e)] x hx

theorem allInsts_appendBlock_mono (b : Builder) (n : String) (x : Nat × Event)
    (hx : x ∈ b.allInsts) : x ∈ (b.appendBlock n).2.allInsts :=
  mem_flatten_append_blocks b.blocks [⟨n, []⟩] x hx

theorem allInsts_position (b : Builder) (i : Nat) :
    (b.position i).allInsts = b.allInsts := rfl

theorem blockInsts_subset_allInsts (b : Builder) (i : Nat) (x : Nat × Event)
    (hx : x ∈ b.blockInsts i) : x ∈ b.allInsts := by
  cases hsome : b.blocks[i]? with
  | none => simp [Builder.blockInsts, hsome] at hx
  | some blk =>
    have hx' : x ∈ blk.insts := by simpa [Builder.blockInsts, hsome] using hx
    have hmem : blk ∈ b.blocks := List.getElem?_mem hsome
    exact List.mem_flatten.mpr ⟨blk.insts, List.mem_map_of_mem _ hmem, hx'⟩

theorem emit_mem_allInsts (b : Builder) (e : Event) (h : b.cur < b.blocks.length) :
    (b.nextVal, e) ∈ (b.emit e).2.allInsts := by
  apply blockInsts_subset_allInsts _ b.cur
  rw [show (b.emit e).2.blockInsts b.cur = b.blockInsts b.cur ++ [(b.nextVal, e)]
    from blockInsts_emit_self b e h]
  exact List.mem_append_right _ (List.mem_singleton.mpr rfl)

theorem ir_render_bin_op_add_mono (ty : NumType) (wrap want : Bool) (o1 o2 : Val)
    (b : Builder) (h : b.cur < b.blocks.length) :
    ((ir_render_bin_op_add ty wrap want o1 o2 b).2.cur <
      (ir_render_bin_op_add ty wrap want o1 o2 b).2.blocks.length) ∧
    b.blocks.length ≤ (ir_render_bin_op_add ty wrap want o1 o2 b).2.blocks.length ∧
    ∀ x ∈ b.allInsts, x ∈ (ir_render_bin_op_add ty wrap want o1 o2 b).2.allInsts := by
  cases ty with
  | float bits =>
    exact ⟨by simpa [ir_render_bin_op_add] using h, by simp [ir_render_bin_op_add],
      fun x hx => allInsts_emit_mono _ _ _ hx⟩
  | int ity =>
    cases wrap with
    | true =>
      exact ⟨by simpa [ir_render_bin_op_add] using h, by simp [ir_render_bin_op_add],
        fun x hx => allInsts_emit_mono _ _ _ hx⟩
    | false =>
      cases want with
      | true =>
        have hrw : ir_render_bin_op_add (NumType.int ity) false true o1 o2 b =
            gen_overflow_op ity AddSubMul.add o1 o2 b := rfl
        rw [hrw, gen_overflow_op_eq _ _ _ _ _ h]
        refine ⟨by simp, by simp, fun x hx => ?_⟩
        exact mem_flatten_append_blocks _ _ x
          (mem_flatten_updateIdx_insts b.blocks b.cur _ x hx)
      | false =>
        cases hs : ity.is_signed with
        | true =>
          have hrw : ir_render_bin_op_add (NumType.int ity) false false o1 o2 b =
              b.emit (Event.nswAdd o1 o2) := by
            simp [ir_render_bin_op_add, hs]
          rw [hrw]
          exact ⟨by simpa using h, by simp, fun x hx => allInsts_emit_mono _ _ _ hx⟩
        | false =>
          have hrw : ir_render_bin_op_add (NumType.int ity) false false o1 o2 b =
              b.emit (Event.nuwAdd o1 o2) := by
            simp [ir_render_bin_op_add, hs]
          rw [hrw]
          exact ⟨by simpa using h, by simp, fun x hx => allInsts_emit_mono _ _ _ hx⟩

theorem ir_render_instruction_mono (rel : Bool) (exits : List Nat)
    (instr : IrInstr) (b : Builder) (h : b.cur < b.blocks.length) :
    ((ir_render_instruction rel exits instr b).2.cur <
      (ir_render_instruction rel exits instr b).2.blocks.length) ∧
    b.blocks.length ≤ (ir_render_instruction rel exits instr b).2.blocks.length ∧
    ∀ x ∈ b.allInsts, x ∈ (ir_render_instruction rel exits instr b).2.allInsts := by
  cases hop : instr.op with
  | binOpAdd ty wrap son scope o1 o2 =>
    have hrw : ir_render_instruction rel exits instr b =
        ir_render_bin_op_add ty wrap (son && ir_want_debug_safety rel scope) o1 o2 b := by
      simp [ir_render_instruction, hop]
    rw [hrw]
    exact ir_render_bin_op_add_mono _ _ _ _ _ _ h
  | phi inc =>
    have hrw : ir_render_instruction rel exits instr b =
        ir_render_phi exits inc b := by
      simp [ir_render_instruction, hop]
    rw [hrw]
    exact ⟨by simpa [ir_render_phi] using h, by simp [ir_render_phi],
      fun x hx => allInsts_emit_mono _ _ _ hx⟩

theorem ir_render_block_mono (rel : Bool) (exits : List Nat)
    (instrs : List IrInstr) (b : Builder) (h : b.cur < b.blocks.length) :
    ((ir_render_block rel exits instrs b).cur <
      (ir_render_block rel exits instrs b).blocks.length) ∧
    b.blocks.length ≤ (ir_render_block rel exits instrs b).blocks.length ∧
    ∀ x ∈ b.allInsts, x ∈ (ir_render_block rel exits instrs b).allInsts := by
  induction instrs generalizing b with
  | nil => exact ⟨h, Nat.le_refl _, fun x hx => hx⟩
  | cons ins rest ih =>
    have hrw : ir_render_block rel exits (ins :: rest) b =
        ir_render_block rel exits rest
          (if ins.ref_count = 0 ∧ ins.has_side_effects = false then b
           else (ir_render_instruction rel exits ins b).2) := rfl
    rw [hrw]
    by_cases hskip : ins.ref_count = 0 ∧ ins.has_side_effects = false
    · rw [if_pos hskip]
      exact ih b h
    · rw [if_neg hskip]
      obtain ⟨h1, h2, h3⟩ := ir_render_instruction_mono rel exits ins b h
      obtain ⟨g1, g2, g3⟩ := ih _ h1
      exact ⟨g1, Nat.le_trans h2 g2, fun x hx => g3 x (h3 x hx)⟩

theorem ir_render_block_phi (rel : Bool) (exits : List Nat) (instrs : List IrInstr)
    (b : Builder) (h : b.cur < b.blocks.length) (k : Nat) (instr : IrInstr)
    (hin : instrs[k]? = some instr) (inc : List (Val × Nat))
    (hphi : instr.op = IrOp.phi inc)
    (hlive : ¬(instr.ref_count = 0 ∧ instr.has_side_effects = false)) :
    ∃ id, (id, Event.phiNode (inc.map fun vj => (vj.1, exits[vj.2]?))) ∈
      (ir_render_block rel exits instrs b).allInsts := by
  induction instrs generalizing b k with
  | nil => simp at hin
  | cons ins rest ih =>
    have hrw : ir_render_block rel exits (ins :: rest) b =
        ir_render_block rel exits rest
          (if ins.ref_count = 0 ∧ ins.has_side_effects = false then b
           else (ir_render_instruction rel exits ins b).2) := rfl
    rw [hrw]
    cases k with
    | zero =>
      obtain rfl : ins = instr := by simpa using hin
      rw [if_neg hlive]
      have hinst : (ir_render_instruction rel exits ins b).2 =
          (b.emit (Event.phiNode (inc.map fun vj => (vj.1, exits[vj.2]?)))).2 := by
        simp [ir_render_instruction, hphi, ir_render_phi]
      rw [hinst]
      have hmem := emit_mem_allInsts b
        (Event.phiNode (inc.map fun vj => (vj.1, exits[vj.2]?))) h
      have hval : (b.emit (Event.phiNode (inc.map fun vj =>
          (vj.1, exits[vj.2]?)))).2.cur <
          (b.emit (Event.phiNode (inc.map fun vj =>
            (vj.1, exits[vj.2]?)))).2.blocks.length := by
        simpa using h
      obtain ⟨_, _, hmono⟩ := ir_render_block_mono rel exits rest _ hval
      exact ⟨b.nextVal, hmono _ hmem⟩
    | succ k =>
      by_cases hskip : ins.ref_count = 0 ∧ ins.has_side_effects = false
      · rw [if_pos hskip]
        exact ih b h k (by simpa using hin)
      · rw [if_neg hskip]
        obtain ⟨h1, _, _⟩ := ir_render_instruction_mono rel exits ins b h
        exact ih _ h1 k (by simpa using hin)

/-! ## The render loop -/

theorem ir_render_loop_exits_prefix (rel : Bool) (rem : List (IrBasicBlock × Nat)) :
    ∀ b exits, ∃ tail, (ir_render_loop rel rem b exits).2 = exits ++ tail ∧
      tail.length = rem.length := by
  induction rem with
  | nil => intro b exits; exact ⟨[], by simp [ir_render_loop], rfl⟩
  | cons bh rest ih =>
    intro b exits
    obtain ⟨bb, hd⟩ := bh
    obtain ⟨tail, ht, hl⟩ := ih
      (ir_render_block rel exits bb.instruction_list (b.position hd))
      (exits ++ [(ir_render_block rel exits bb.instruction_list (b.position hd)).cur])
    refine ⟨(ir_render_block rel exits bb.instruction_list (b.position hd)).cur :: tail,
      ?_, by simp [hl]⟩
    rw [show ir_render_loop rel ((bb, hd) :: rest) b exits =
        ir_render_loop rel rest
          (ir_render_block rel exits bb.instruction_list (b.position hd))
          (exits ++ [(ir_render_block rel exits bb.instruction_list (b.position hd)).cur])
      from rfl]
    rw [ht]
    simp

theorem ir_render_loop_mono (rel : Bool) (rem : List (IrBasicBlock × Nat)) :
    ∀ b exits, (∀ bh ∈ rem, bh.2 < b.blocks.length) →
      (b.blocks.length ≤ (ir_render_loop rel rem b exits).1.blocks.length) ∧
      ∀ x ∈ b.allInsts, x ∈ (ir_render_loop rel rem b exits).1.allInsts := by
  induction rem with
  | nil => intro b exits _; exact ⟨Nat.le_refl _, fun x hx => hx⟩
  | cons bh rest ih =>
    intro b exits hh
    obtain ⟨bb, hd⟩ := bh
    rw [show ir_render_loop rel ((bb, hd) :: rest) b exits =
        ir_render_loop rel rest
          (ir_render_block rel exits bb.instruction_list (b.position hd))
          (exits ++ [(ir_render_block rel exits bb.instruction_list (b.position hd)).cur])
      from rfl]
    have hd_lt : hd < b.blocks.length := hh (bb, hd) (List.mem_cons_self _ _)
    have hpos : (b.position hd).cur < (b.position hd).blocks.length := by
      simpa using hd_lt
    obtain ⟨o1, o2, o3⟩ :=
      ir_render_block_mono rel exits bb.instruction_list (b.position hd) hpos
    have hh' : ∀ bh2 ∈ rest, bh2.2 <
        (ir_render_block rel exits bb.instruction_list (b.position hd)).blocks.length := by
      intro bh2 hmem
      exact Nat.lt_of_lt_of_le (hh bh2 (List.mem_cons_of_mem _ hmem)) o2
    obtain ⟨g2, g3⟩ := ih _ (exits ++
      [(ir_render_block rel exits bb.instruction_list (b.position hd)).cur]) hh'
    exact ⟨Nat.le_trans o2 g2, fun x hx => g3 x (o3 x hx)⟩

theorem ir_render_loop_phi (rel : Bool) (rem : List (IrBasicBlock × Nat)) :
    ∀ b exits i bbh, (∀ bh ∈ rem, bh.2 < b.blocks.length) →
      rem[i]? = some bbh →
      ∀ (k : Nat) (instr : IrInstr), bbh.1.instruction_list[k]? = some instr →
      ∀ inc, instr.op = IrOp.phi inc →
      ¬(instr.ref_count = 0 ∧ instr.has_side_effects = false) →
      (∀ vj ∈ inc, vj.2 < exits.length + i) →
      ∃ id, (id, Event.phiNode (inc.map fun vj =>
          (vj.1, (ir_render_loop rel rem b exits).2[vj.2]?))) ∈
        (ir_render_loop rel rem b exits).1.allInsts := by
  induction rem with
  | nil =>
    intro b exits i bbh _ hbb
    simp at hbb
  | cons bh rest ih =>
    intro b exits i bbh hh hbb k instr hin inc hphi hlive hpred
    obtain ⟨bb, hd⟩ := bh
    rw [show ir_render_loop rel ((bb, hd) :: rest) b exits =
        ir_render_loop rel rest
          (ir_render_block rel exits bb.instruction_list (b.position hd))
          (exits ++ [(ir_render_block rel exits bb.instruction_list (b.position hd)).cur])
      from rfl]
    have hd_lt : hd < b.blocks.length := hh (bb, hd) (List.mem_cons_self _ _)
    have hpos : (b.position hd).cur < (b.position hd).blocks.length := by
      simpa using hd_lt
    obtain ⟨o1, o2, o3⟩ :=
      ir_render_block_mono rel exits bb.instruction_list (b.position hd) hpos
    have hh' : ∀ bh2 ∈ rest, bh2.2 <
        (ir_render_block rel exits bb.instruction_list (b.position hd)).blocks.length := by
      intro bh2 hmem
      exact Nat.lt_of_lt_of_le (hh bh2 (List.mem_cons_of_mem _ hmem)) o2
    cases i with
    | zero =>
      obtain rfl : (bb, hd) = bbh := by simpa using hbb
      obtain ⟨id, hid⟩ := ir_render_block_phi rel exits bb.instruction_list
        (b.position hd) hpos k instr hin inc hphi hlive
      obtain ⟨_, hmono⟩ := ir_render_loop_mono rel rest _ (exits ++
        [(ir_render_block rel exits bb.instruction_list (b.position hd)).cur]) hh'
      obtain ⟨tail, ht, _⟩ := ir_render_loop_exits_prefix rel rest
        (ir_render_block rel exits bb.instruction_list (b.position hd))
        (exits ++ [(ir_render_block rel exits bb.instruction_list (b.position hd)).cur])
      have hpairs : (inc.map fun vj => (vj.1,
          (ir_render_loop rel rest
            (ir_render_block rel exits bb.instruction_list (b.position hd))
            (exits ++ [(ir_render_block rel exits bb.instruction_list
              (b.position hd)).cur])).2[vj.2]?)) =
          (inc.map fun vj => (vj.1, exits[vj.2]?)) := by
        apply List.map_congr_left
        intro vj hvj
        have hlt : vj.2 < exits.length := by
          have := hpred vj hvj
          omega
        rw [ht, List.getElem?_append_left (by simp; omega),
          List.getElem?_append_left hlt]
      rw [hpairs]
      exact ⟨id, hmono _ hid⟩
    | succ i =>
      refine ih _ (exits ++
        [(ir_render_block rel exits bb.instruction_list (b.position hd)).cur]) i bbh
        hh' (by simpa using hbb) k instr hin inc hphi hlive ?_
      intro vj hvj
      have := hpred vj hvj
      simp
      omega

/-! ## Pre-building the backend blocks -/

theorem build_all_basic_blocks_loop_eq (bbs : List IrBasicBlock) :
    ∀ (b : Builder) (handles : List Nat),
      build_all_basic_blocks_loop bbs b handles =
        (⟨b.blocks ++ bbs.map (fun bb => ⟨bb.name_hint, []⟩), b.cur, b.nextVal⟩,
         handles ++ List.range' b.blocks.length bbs.length) := by
  induction bbs with
  | nil => intro b handles; simp [build_all_basic_blocks_loop]
  | cons bb rest ih =>
    intro b handles
    rw [show build_all_basic_blocks_loop (bb :: rest) b handles =
        build_all_basic_blocks_loop rest (b.appendBlock bb.name_hint).2
          (handles ++ [(b.appendBlock bb.name_hint).1]) from rfl]
    rw [ih]
    simp [Builder.appendBlock, List.range'_succ, List.append_assoc]

theorem build_all_basic_blocks_spec (bbs : List IrBasicBlock) (hne : bbs ≠ []) :
    build_all_basic_blocks bbs ⟨[], 0, 0⟩ =
      (⟨bbs.map (fun bb => ⟨bb.name_hint, []⟩), 0, 0⟩, List.range' 0 bbs.length) := by
  cases bbs with
  | nil => exact absurd rfl hne
  | cons bb rest =>
    rw [show build_all_basic_blocks (bb :: rest) ⟨[], 0, 0⟩ =
        (match (build_all_basic_blocks_loop (bb :: rest) ⟨[], 0, 0⟩ []).2[0]? with
         | some h => (build_all_basic_blocks_loop (bb :: rest) ⟨[], 0, 0⟩ []).1.position h
         | none => (build_all_basic_blocks_loop (bb :: rest) ⟨[], 0, 0⟩ []).1,
         (build_all_basic_blocks_loop (bb :: rest) ⟨[], 0, 0⟩ []).2) from rfl]
    rw [build_all_basic_blocks_loop_eq]
    simp [List.range'_succ, Builder.position]

theorem getElem?_zip_of_some {l₁ : List α} {l₂ : List β} {i : Nat} {a : α} {b : β}
    (h1 : l₁[i]? = some a) (h2 : l₂[i]? = some b) :
    (l₁.zip l₂)[i]? = some (a, b) := by
  rw [List.zip_eq_zipWith, List.getElem?_zipWith, h1, h2]

end Codegen

/-! ## The claims -/

namespace Codegen

/-- **C1** (counterexample).  The claim asserts that an explicitly set scope
flag wins even in a release build; the code returns `false` for every
instruction in a release build before consulting the scope chain.  Concrete
input: release build, innermost scope a `Block` with the safety flag
explicitly set to ON (`safety_off = false`). -/
theorem c1_scope_wins_in_release_counterexample :
    nearestSafetySetting [⟨ScopeId.block, true, false⟩] = some false ∧
      ¬ ir_want_debug_safety true [⟨ScopeId.block, true, false⟩] = !false := by
  decide

/-- **C1** (amended).  In a non-release build the nearest enclosing `Block` or
`Decls` scope with a set safety flag decides (the predicate returns the
negation of its `safety_off`), else the default `true`; in a release build the
predicate returns `false` regardless of any scope's explicit setting. -/
theorem c1_safety_predicate_amended (is_release_build : Bool) (chain : List ScopeNode) :
    ir_want_debug_safety is_release_build chain =
      if is_release_build then false
      else
        match nearestSafetySetting chain with
        | some off => !off
        | none => true := by
  cases is_release_build with
  | false => simpa [ir_want_debug_safety] using ir_want_debug_safety_walk_eq chain
  | true => rfl

/-- **C3**.  A non-wrapping integer add on signed `i32` with the safety
predicate true emits exactly one call to `llvm.sadd.with.overflow.i32`,
extracts element 0 of the returned pair as the result and element 1 as the
overflow bit, conditionally branches on the overflow bit to a freshly
appended fail block (calling `llvm.debugtrap` then `unreachable`), and
continues in the freshly appended ok block. -/
theorem c3_overflow_checked_add (b : Builder) (v1 v2 : Val)
    (h : b.cur < b.blocks.length) :
    (ir_render_bin_op_add (NumType.int ⟨true, 32⟩) false true v1 v2 b).1 =
        Val.reg (b.nextVal + 1) ∧
    (ir_render_bin_op_add (NumType.int ⟨true, 32⟩) false true v1 v2 b).2.countEvents
        (Event.isCallTo "llvm.sadd.with.overflow.i32") =
      b.countEvents (Event.isCallTo "llvm.sadd.with.overflow.i32") + 1 ∧
    (ir_render_bin_op_add (NumType.int ⟨true, 32⟩) false true v1 v2 b).2.blockInsts b.cur =
      b.blockInsts b.cur ++
        [(b.nextVal, Event.call "llvm.sadd.with.overflow.i32" [v1, v2]),
         (b.nextVal + 1, Event.extractValue (Val.reg b.nextVal) 0),
         (b.nextVal + 2, Event.extractValue (Val.reg b.nextVal) 1),
         (b.nextVal + 3, Event.condBr (Val.reg (b.nextVal + 2))
           b.blocks.length (b.blocks.length + 1))] ∧
    (ir_render_bin_op_add (NumType.int ⟨true, 32⟩) false true v1 v2 b).2.blockInsts
        b.blocks.length =
      [(b.nextVal + 4, Event.call "llvm.debugtrap" []),
       (b.nextVal + 5, Event.unreach)] ∧
    (ir_render_bin_op_add (NumType.int ⟨true, 32⟩) false true v1 v2 b).2.cur =
      b.blocks.length + 1 ∧
    (ir_render_bin_op_add (NumType.int ⟨true, 32⟩) false true v1 v2 b).2.blockInsts
        (b.blocks.length + 1) = [] := by
  have hname : get_overflow_fn_name ⟨true, 32⟩ AddSubMul.add =
      "llvm.sadd.with.overflow.i32" := by decide
  have hrw : ir_render_bin_op_add (NumType.int ⟨true, 32⟩) false true v1 v2 b =
      gen_overflow_op ⟨true, 32⟩ AddSubMul.add v1 v2 b := rfl
  have hne : ("llvm.debugtrap" = "llvm.sadd.with.overflow.i32") = False := by
    simp
  rw [hrw, gen_overflow_op_eq _ _ _ _ _ h, hname]
  refine ⟨rfl, ?_, ?_, ?_, rfl, ?_⟩
  · rw [countEvents_update_append _ _ _ _ _ _ _ h]
    simp [Builder.countEvents, List.countP_cons, List.countP_nil, Event.isCallTo, hne]
  · rw [blockInsts_update_append _ _ _ _ _ _ h]
    rfl
  · rw [blockInsts_append_extra _ _ _ _ _ 0 (by simp)]
    rfl
  · rw [blockInsts_append_extra _ _ _ _ _ 1 (by simp)]
    rfl

/-- Witness for `c3_overflow_checked_add` at a concrete one-block builder. -/
theorem c3_overflow_checked_add_witness :
    (Builder.mk [⟨"entry", []⟩] 0 0).cur < (Builder.mk [⟨"entry", []⟩] 0 0).blocks.length ∧
    (ir_render_bin_op_add (NumType.int ⟨true, 32⟩) false true (Val.reg 7) (Val.reg 8)
        (Builder.mk [⟨"entry", []⟩] 0 0)).2.countEvents
      (Event.isCallTo "llvm.sadd.with.overflow.i32") = 1 :=
  ⟨by decide,
   ((c3_overflow_checked_add (Builder.mk [⟨"entry", []⟩] 0 0) (Val.reg 7) (Val.reg 8)
      (by decide)).2.1).trans (by decide)⟩

/-- **C4**.  `add_bounds_check`: with no bound supplied nothing is emitted;
with exactly one bound supplied exactly one compare and one conditional
branch are emitted; with both bounds the lower compare comes first in the
current block, the upper compare is emitted only in the lower-check-ok
block, both conditional branches share the single fail block, and the fail
block calls `llvm.debugtrap` and ends in `unreachable`. -/
theorem c4_bounds_check (b : Builder) (t lv uv : Val) (lp up : IntPredicate)
    (h : b.cur < b.blocks.length) :
    add_bounds_check t lp none up none b = b ∧
    ((add_bounds_check t lp (some lv) up none b).countEvents Event.isIcmp =
        b.countEvents Event.isIcmp + 1 ∧
     (add_bounds_check t lp (some lv) up none b).countEvents Event.isCondBr =
        b.countEvents Event.isCondBr + 1) ∧
    ((add_bounds_check t lp none up (some uv) b).countEvents Event.isIcmp =
        b.countEvents Event.isIcmp + 1 ∧
     (add_bounds_check t lp none up (some uv) b).countEvents Event.isCondBr =
        b.countEvents Event.isCondBr + 1) ∧
    ((add_bounds_check t lp (some lv) up (some uv) b).blockInsts b.cur =
        b.blockInsts b.cur ++
          [(b.nextVal, Event.icmp lp t lv),
           (b.nextVal + 1, Event.condBr (Val.reg b.nextVal)
             (b.blocks.length + 2) b.blocks.length)] ∧
     (add_bounds_check t lp (some lv) up (some uv) b).blockInsts
         (b.blocks.length + 2) =
       [(b.nextVal + 4, Event.icmp up t uv),
        (b.nextVal + 5, Event.condBr (Val.reg (b.nextVal + 4))
          (b.blocks.length + 1) b.blocks.length)] ∧
     (add_bounds_check t lp (some lv) up (some uv) b).blockInsts b.blocks.length =
       [(b.nextVal + 2, Event.call "llvm.debugtrap" []),
        (b.nextVal + 3, Event.unreach)] ∧
     (add_bounds_check t lp (some lv) up (some uv) b).cur = b.blocks.length + 1) := by
  have hgo1 : add_bounds_check t lp (some lv) up none b =
      add_bounds_check_go t lp lv up none b := rfl
  have hgo2 : add_bounds_check t lp none up (some uv) b =
      add_bounds_check_go t up uv up none b := rfl
  have hgo3 : add_bounds_check t lp (some lv) up (some uv) b =
      add_bounds_check_go t lp lv up (some uv) b := rfl
  refine ⟨rfl, ?_, ?_, ?_⟩
  · rw [hgo1, add_bounds_check_go_none_eq _ _ _ _ _ h]
    constructor <;>
    · rw [countEvents_update_append _ _ _ _ _ _ _ h]
      simp [Builder.countEvents, List.countP_cons, List.countP_nil,
        Event.isIcmp, Event.isCondBr]
  · rw [hgo2, add_bounds_check_go_none_eq _ _ _ _ _ h]
    constructor <;>
    · rw [countEvents_update_append _ _ _ _ _ _ _ h]
      simp [Builder.countEvents, List.countP_cons, List.countP_nil,
        Event.isIcmp, Event.isCondBr]
  · rw [hgo3, add_bounds_check_go_some_eq _ _ _ _ _ _ h]
    refine ⟨?_, ?_, ?_, rfl⟩
    · rw [blockInsts_update_append _ _ _ _ _ _ h]
      rfl
    · rw [blockInsts_append_extra _ _ _ _ _ 2 (by simp)]
      rfl
    · rw [blockInsts_append_extra _ _ _ _ _ 0 (by simp)]
      rfl

/-- Witness for `c4_bounds_check` at a concrete one-block builder. -/
theorem c4_bounds_check_witness :
    (Builder.mk [⟨"entry", []⟩] 0 0).cur < (Builder.mk [⟨"entry", []⟩] 0 0).blocks.length ∧
    (add_bounds_check (Val.reg 9) IntPredicate.ne (some Val.constNull)
        IntPredicate.ult (some (Val.constInt 3))
        (Builder.mk [⟨"entry", []⟩] 0 0)).blockInsts 1 =
      [(2, Event.call "llvm.debugtrap" []), (3, Event.unreach)] :=
  ⟨by decide,
   (c4_bounds_check (Builder.mk [⟨"entry", []⟩] 0 0) (Val.reg 9) Val.constNull
      (Val.constInt 3) IntPredicate.ne IntPredicate.ult (by decide)).2.2.2.2.2.1⟩

/-- **C10**.  `ErrName` lowering: when the error declaration list holds only
the implicit ok entry (length 1), a lone `unreachable` is emitted, no value
is produced, and no compare, branch or GEP is emitted; otherwise, with
safety on, the error value is checked to be non-zero (`≠ 0`) and strictly
below the declaration-list length, both failure branches share the trap
block, and only then is the table GEP emitted (in the bounds-check-ok
block). -/
theorem c10_err_name (b : Builder) (is_release_build : Bool)
    (scope : List ScopeNode) (len : Nat) (err : Val)
    (h : b.cur < b.blocks.length) :
    (len = 1 →
      (ir_render_err_name is_release_build scope len err b).1 = none ∧
      (ir_render_err_name is_release_build scope len err b).2.blockInsts b.cur =
        b.blockInsts b.cur ++ [(b.nextVal, Event.unreach)] ∧
      (ir_render_err_name is_release_build scope len err b).2.blocks.length =
        b.blocks.length ∧
      (∀ p, (ir_render_err_name is_release_build scope len err b).2.countEvents p =
        b.countEvents p + (if p Event.unreach then 1 else 0))) ∧
    (len ≠ 1 → ir_want_debug_safety is_release_build scope = true →
      (ir_render_err_name is_release_build scope len err b).1 =
        some (Val.reg (b.nextVal + 6)) ∧
      (ir_render_err_name is_release_build scope len err b).2.blockInsts b.cur =
        b.blockInsts b.cur ++
          [(b.nextVal, Event.icmp IntPredicate.ne err Val.constNull),
           (b.nextVal + 1, Event.condBr (Val.reg b.nextVal)
             (b.blocks.length + 2) b.blocks.length)] ∧
      (ir_render_err_name is_release_build scope len err b).2.blockInsts
          (b.blocks.length + 2) =
        [(b.nextVal + 4, Event.icmp IntPredicate.ult err (Val.constInt len)),
         (b.nextVal + 5, Event.condBr (Val.reg (b.nextVal + 4))
           (b.blocks.length + 1) b.blocks.length)] ∧
      (ir_render_err_name is_release_build scope len err b).2.blockInsts
          b.blocks.length =
        [(b.nextVal + 2, Event.call "llvm.debugtrap" []),
         (b.nextVal + 3, Event.unreach)] ∧
      (ir_render_err_name is_release_build scope len err b).2.blockInsts
          (b.blocks.length + 1) =
        [(b.nextVal + 6, Event.gepInbounds (Val.globalRef "err_name_table")
          [Val.constNull, err])] ∧
      (ir_render_err_name is_release_build scope len err b).2.cur =
        b.blocks.length + 1) := by
  constructor
  · intro hlen
    subst hlen
    refine ⟨rfl, ?_, ?_, ?_⟩
    · exact blockInsts_emit_self b Event.unreach h
    · simp [ir_render_err_name]
    · intro p
      exact countEvents_emit b Event.unreach p h
  · intro hlen hsafe
    have hrw : ir_render_err_name is_release_build scope len err b =
        (some (Val.reg ((add_bounds_check_go err IntPredicate.ne Val.constNull
            IntPredicate.ult (some (Val.constInt len)) b).nextVal)),
         ((add_bounds_check_go err IntPredicate.ne Val.constNull
            IntPredicate.ult (some (Val.constInt len)) b).emit
           (Event.gepInbounds (Val.globalRef "err_name_table")
             [Val.constNull, err])).2) := by
      simp only [ir_render_err_name, if_neg hlen, hsafe, if_pos, add_bounds_check]
      rfl
    rw [hrw, add_bounds_check_go_some_eq _ _ _ _ _ _ h]
    refine ⟨rfl, ?_, ?_, ?_, ?_, rfl⟩
    · rw [blockInsts_emit_ne _ _ _ (by simp <;> omega)]
      rw [blockInsts_update_append _ _ _ _ _ _ h]
      rfl
    · rw [blockInsts_emit_ne _ _ _ (by simp <;> omega)]
      rw [blockInsts_append_extra _ _ _ _ _ 2 (by simp)]
      rfl
    · rw [blockInsts_emit_ne _ _ _ (by simp <;> omega)]
      rw [blockInsts_append_extra _ _ _ _ _ 0 (by simp)]
      rfl
    · rw [blockInsts_emit_self _ _ (by simp)]
      rw [blockInsts_append_extra _ _ _ _ _ 1 (by simp)]
      rfl

/-- Witness for `c10_err_name`: with only the ok entry a lone `unreachable`
and no icmp; with two error entries and safety on, the shared trap block. -/
theorem c10_err_name_witness :
    (Builder.mk [⟨"entry", []⟩] 0 0).cur < (Builder.mk [⟨"entry", []⟩] 0 0).blocks.length ∧
    (ir_render_err_name false [] 1 (Val.reg 5)
        (Builder.mk [⟨"entry", []⟩] 0 0)).2.countEvents Event.isIcmp = 0 :=
  ⟨by decide,
   ((c10_err_name (Builder.mk [⟨"entry", []⟩] 0 0) false [] 1 (Val.reg 5)
      (by decide)).1 rfl).2.2.2 Event.isIcmp |>.trans (by decide)⟩

/-- **C2** (counterexample).  The claim asserts a debug-declare is always
emitted for a `DeclVar` of non-zero-sized type; but a variable whose
ref-count is zero is skipped entirely (codegen.cpp:1355-1356), debug-declare
included.  Concrete input: a variable with bits, ref-count 0, runtime
initializer. -/
theorem c2_decl_var_counterexample :
    (VariableModel.mk (Val.reg 0) true 0 4 4).type_has_bits = true ∧
    (ir_render_decl_var false 8 (VariableModel.mk (Val.reg 0) true 0 4 4) []
        ConstValSpecial.runtime (Builder.mk [⟨"entry", []⟩] 0 0)).2.countEvents
      Event.isDebugDeclare = 0 := by
  constructor
  · rfl
  · rfl

/-- **C2** (amended).  For every `DeclVar` lowered for a variable of
non-zero-sized type *and non-zero ref-count*, exactly one debug-declare is
emitted, as the last instruction added to the current block — regardless of
whether the initializer was stored, the slot was memset, or nothing was
written. -/
theorem c2_decl_var_always_debug_declare (is_release_build : Bool)
    (pointer_size_bytes : Nat) (var : VariableModel) (scope : List ScopeNode)
    (init_special : ConstValSpecial) (b : Builder)
    (hbits : var.type_has_bits = true) (href : var.ref_count ≠ 0)
    (h : b.cur < b.blocks.length) :
    (ir_render_decl_var is_release_build pointer_size_bytes var scope
        init_special b).2.countEvents Event.isDebugDeclare =
      b.countEvents Event.isDebugDeclare + 1 ∧
    ∃ id, ((ir_render_decl_var is_release_build pointer_size_bytes var scope
        init_special b).2.blockInsts b.cur).getLast? =
      some (id, Event.debugDeclare var.value_ref) := by
  cases init_special with
  | runtime =>
    have heq : (ir_render_decl_var is_release_build pointer_size_bytes var scope
        ConstValSpecial.runtime b).2 =
        ⟨updateIdx b.blocks b.cur (fun blk =>
          { blk with insts := blk.insts ++
              [(b.nextVal, Event.assignRaw var.value_ref),
               (b.nextVal + 1, Event.debugDeclare var.value_ref)] }),
         b.cur, b.nextVal + 2⟩ := by
      simp [ir_render_decl_var, hbits, href, Builder.emit, updateIdx_updateIdx]
    rw [heq, countEvents_update _ _ _ _ _ _ h, blockInsts_update _ _ _ _ _ h]
    refine ⟨by simp [Builder.countEvents, List.countP_cons, List.countP_nil,
      Event.isDebugDeclare], ⟨b.nextVal + 1, ?_⟩⟩
    rw [show ((b.blocks[b.cur]?.map BBlock.insts).getD [] ++
        [(b.nextVal, Event.assignRaw var.value_ref),
         (b.nextVal + 1, Event.debugDeclare var.value_ref)]) =
        (((b.blocks[b.cur]?.map BBlock.insts).getD [] ++
          [(b.nextVal, Event.assignRaw var.value_ref)]) ++
         [(b.nextVal + 1, Event.debugDeclare var.value_ref)]) by simp]
    exact List.getLast?_concat _
  | static =>
    have heq : (ir_render_decl_var is_release_build pointer_size_bytes var scope
        ConstValSpecial.static b).2 =
        ⟨updateIdx b.blocks b.cur (fun blk =>
          { blk with insts := blk.insts ++
              [(b.nextVal, Event.assignRaw var.value_ref),
               (b.nextVal + 1, Event.debugDeclare var.value_ref)] }),
         b.cur, b.nextVal + 2⟩ := by
      simp [ir_render_decl_var, hbits, href, Builder.emit, updateIdx_updateIdx]
    rw [heq, countEvents_update _ _ _ _ _ _ h, blockInsts_update _ _ _ _ _ h]
    refine ⟨by simp [Builder.countEvents, List.countP_cons, List.countP_nil,
      Event.isDebugDeclare], ⟨b.nextVal + 1, ?_⟩⟩
    rw [show ((b.blocks[b.cur]?.map BBlock.insts).getD [] ++
        [(b.nextVal, Event.assignRaw var.value_ref),
         (b.nextVal + 1, Event.debugDeclare var.value_ref)]) =
        (((b.blocks[b.cur]?.map BBlock.insts).getD [] ++
          [(b.nextVal, Event.assignRaw var.value_ref)]) ++
         [(b.nextVal + 1, Event.debugDeclare var.value_ref)]) by simp]
    exact List.getLast?_concat _
  | zeroes =>
    have heq : (ir_render_decl_var is_release_build pointer_size_bytes var scope
        ConstValSpecial.zeroes b).2 =
        ⟨updateIdx b.blocks b.cur (fun blk =>
          { blk with insts := blk.insts ++
              [(b.nextVal, Event.bitcast var.value_ref),
               (b.nextVal + 1, Event.call (memset_fn_name pointer_size_bytes)
                 [Val.reg b.nextVal, Val.constInt 0x00, Val.constInt var.size_bytes,
                  Val.constInt var.align_bytes, Val.constNull]),
               (b.nextVal + 2, Event.debugDeclare var.value_ref)] }),
         b.cur, b.nextVal + 3⟩ := by
      simp [ir_render_decl_var, hbits, href, Builder.emit, updateIdx_updateIdx]
    rw [heq, countEvents_update _ _ _ _ _ _ h, blockInsts_update _ _ _ _ _ h]
    refine ⟨by simp [Builder.countEvents, List.countP_cons, List.countP_nil,
      Event.isDebugDeclare], ⟨b.nextVal + 2, ?_⟩⟩
    rw [show ((b.blocks[b.cur]?.map BBlock.insts).getD [] ++
        [(b.nextVal, Event.bitcast var.value_ref),
         (b.nextVal + 1, Event.call (memset_fn_name pointer_size_bytes)
           [Val.reg b.nextVal, Val.constInt 0x00, Val.constInt var.size_bytes,
            Val.constInt var.align_bytes, Val.constNull]),
         (b.nextVal + 2, Event.debugDeclare var.value_ref)]) =
        (((b.blocks[b.cur]?.map BBlock.insts).getD [] ++
          [(b.nextVal, Event.bitcast var.value_ref),
           (b.nextVal + 1, Event.call (memset_fn_name pointer_size_bytes)
             [Val.reg b.nextVal, Val.constInt 0x00, Val.constInt var.size_bytes,
              Val.constInt var.align_bytes, Val.constNull])]) ++
         [(b.nextVal + 2, Event.debugDeclare var.value_ref)]) by simp]
    exact List.getLast?_concat _
  | undef =>
    by_cases hws : ir_want_debug_safety is_release_build scope = true
    · have heq : (ir_render_decl_var is_release_build pointer_size_bytes var scope
          ConstValSpecial.undef b).2 =
          ⟨updateIdx b.blocks b.cur (fun blk =>
            { blk with insts := blk.insts ++
                [(b.nextVal, Event.bitcast var.value_ref),
                 (b.nextVal + 1, Event.call (memset_fn_name pointer_size_bytes)
                   [Val.reg b.nextVal, Val.constInt 0xaa, Val.constInt var.size_bytes,
                    Val.constInt var.align_bytes, Val.constNull]),
                 (b.nextVal + 2, Event.debugDeclare var.value_ref)] }),
           b.cur, b.nextVal + 3⟩ := by
        simp [ir_render_decl_var, hbits, href, hws, Builder.emit, updateIdx_updateIdx]
      rw [heq, countEvents_update _ _ _ _ _ _ h, blockInsts_update _ _ _ _ _ h]
      refine ⟨by simp [Builder.countEvents, List.countP_cons, List.countP_nil,
        Event.isDebugDeclare], ⟨b.nextVal + 2, ?_⟩⟩
      rw [show ((b.blocks[b.cur]?.map BBlock.insts).getD [] ++
          [(b.nextVal, Event.bitcast var.value_ref),
           (b.nextVal + 1, Event.call (memset_fn_name pointer_size_bytes)
             [Val.reg b.nextVal, Val.constInt 0xaa, Val.constInt var.size_bytes,
              Val.constInt var.align_bytes, Val.constNull]),
           (b.nextVal + 2, Event.debugDeclare var.value_ref)]) =
          (((b.blocks[b.cur]?.map BBlock.insts).getD [] ++
            [(b.nextVal, Event.bitcast var.value_ref),
             (b.nextVal + 1, Event.call (memset_fn_name pointer_size_bytes)
               [Val.reg b.nextVal, Val.constInt 0xaa, Val.constInt var.size_bytes,
                Val.constInt var.align_bytes, Val.constNull])]) ++
           [(b.nextVal + 2, Event.debugDeclare var.value_ref)]) by simp]
      exact List.getLast?_concat _
    · have heq : (ir_render_decl_var is_release_build pointer_size_bytes var scope
          ConstValSpecial.undef b).2 = (b.emit (Event.debugDeclare var.value_ref)).2 := by
        simp [ir_render_decl_var, hbits, href, hws]
      rw [heq, countEvents_emit _ _ _ h, blockInsts_emit_self _ _ h]
      exact ⟨by simp [Event.isDebugDeclare], ⟨b.nextVal, List.getLast?_concat _⟩⟩

/-- Witness for `c2_decl_var_always_debug_declare` at a concrete variable
with bits, ref-count 1, undefined initializer, safety off (release build). -/
theorem c2_decl_var_always_debug_declare_witness :
    (VariableModel.mk (Val.reg 0) true 1 4 4).type_has_bits = true ∧
    (VariableModel.mk (Val.reg 0) true 1 4 4).ref_count ≠ 0 ∧
    (Builder.mk [⟨"entry", []⟩] 0 0).cur < (Builder.mk [⟨"entry", []⟩] 0 0).blocks.length ∧
    (ir_render_decl_var true 8 (VariableModel.mk (Val.reg 0) true 1 4 4) []
        ConstValSpecial.undef (Builder.mk [⟨"entry", []⟩] 0 0)).2.countEvents
      Event.isDebugDeclare = 1 :=
  ⟨by decide, by decide, by decide,
   ((c2_decl_var_always_debug_declare true 8 (VariableModel.mk (Val.reg 0) true 1 4 4)
      [] ConstValSpecial.undef (Builder.mk [⟨"entry", []⟩] 0 0)
      (by decide) (by decide) (by decide)).1).trans (by decide)⟩

/-- **C8**.  The lowered inline-asm call carries the `sideeffect` (volatile)
flag exactly when the source asm expression is explicitly volatile or its
output list is empty. -/
theorem c8_asm_volatile (asm_expr : AsmExprModel) (return_count : Nat)
    (output_vars input_vals : List Val) (b : Builder)
    (h : b.cur < b.blocks.length) :
    (ir_render_asm asm_expr return_count output_vars input_vals b).2.blockInsts b.cur =
      b.blockInsts b.cur ++
        [(b.nextVal, Event.callAsm (render_asm_template asm_expr)
           (render_asm_constraints asm_expr)
           (asm_expr.is_volatile || (asm_expr.output_list.length == 0))
           (((asm_expr.output_list.zip output_vars).filterMap (fun ov =>
               if ov.1.is_return then none else some ov.2)) ++ input_vals))] ∧
    ((asm_expr.is_volatile || (asm_expr.output_list.length == 0)) = true ↔
      (asm_expr.is_volatile = true ∨ asm_expr.output_list = [])) := by
  constructor
  · exact blockInsts_emit_self b _ h
  · simp [List.length_eq_zero]

/-- Witness for `c8_asm_volatile`: a non-volatile asm expression with no
outputs is marked volatile. -/
theorem c8_asm_volatile_witness :
    (Builder.mk [⟨"entry", []⟩] 0 0).cur < (Builder.mk [⟨"entry", []⟩] 0 0).blocks.length ∧
    (((AsmExprModel.mk [] [] [] [] [] false).is_volatile ||
        ((AsmExprModel.mk [] [] [] [] [] false).output_list.length == 0)) = true ↔
      ((AsmExprModel.mk [] [] [] [] [] false).is_volatile = true ∨
        (AsmExprModel.mk [] [] [] [] [] false).output_list = [])) :=
  ⟨by decide,
   (c8_asm_volatile (AsmExprModel.mk [] [] [] [] [] false) 0 [] []
      (Builder.mk [⟨"entry", []⟩] 0 0) (by decide)).2⟩

/-- **C5**.  For every phi instruction lowered (in block `i`, with every
incoming edge from an earlier block, as produced by the analyzer), the
emitted phi's incoming pairs reference each incoming IR block's recorded
*exit* handle — the entry of the exit-handle table written when that block
finished lowering — and the number of pairs equals the phi's incoming
count; the exit table has exactly one entry per IR basic block. -/
theorem c5_phi_uses_exit_blocks (rel : Bool) (bbs : List IrBasicBlock)
    (i : Nat) (bb : IrBasicBlock) (hbb : bbs[i]? = some bb)
    (k : Nat) (instr : IrInstr) (hin : bb.instruction_list[k]? = some instr)
    (inc : List (Val × Nat)) (hphi : instr.op = IrOp.phi inc)
    (hlive : ¬(instr.ref_count = 0 ∧ instr.has_side_effects = false))
    (hpred : ∀ vj ∈ inc, vj.2 < i) :
    (ir_render rel bbs).2.length = bbs.length ∧
    (inc.map fun vj => (vj.1, (ir_render rel bbs).2[vj.2]?)).length = inc.length ∧
    ∃ id, (id, Event.phiNode (inc.map fun vj =>
        (vj.1, (ir_render rel bbs).2[vj.2]?))) ∈ (ir_render rel bbs).1.allInsts := by
  have hne : bbs ≠ [] := by
    intro hnil
    rw [hnil] at hbb
    simp at hbb
  have hrw : ir_render rel bbs =
      ir_render_loop rel (bbs.zip (build_all_basic_blocks bbs ⟨[], 0, 0⟩).2)
        (build_all_basic_blocks bbs ⟨[], 0, 0⟩).1 [] := rfl
  rw [hrw, build_all_basic_blocks_spec bbs hne]
  have hlen_zip : (bbs.zip (List.range' 0 bbs.length)).length = bbs.length := by
    simp
  have hh : ∀ bh ∈ bbs.zip (List.range' 0 bbs.length),
      bh.2 < (Builder.mk (bbs.map (fun bb => ⟨bb.name_hint, []⟩)) 0 0).blocks.length := by
    intro bh hmem
    obtain ⟨bb1, hd⟩ := bh
    have := (List.of_mem_zip hmem).2
    have hmem' := List.mem_range'.mp this
    obtain ⟨j, hj, heq⟩ := hmem'
    simp only [List.length_map]
    omega
  have hi_lt : i < bbs.length := by
    rcases List.getElem?_eq_some_iff.mp hbb with ⟨hlt, _⟩
    exact hlt
  have hzip : (bbs.zip (List.range' 0 bbs.length))[i]? = some (bb, i) := by
    refine getElem?_zip_of_some hbb ?_
    have := List.getElem?_range' 0 1 hi_lt
    simpa using this
  obtain ⟨tail, ht, htl⟩ := ir_render_loop_exits_prefix rel
    (bbs.zip (List.range' 0 bbs.length))
    (Builder.mk (bbs.map (fun bb => ⟨bb.name_hint, []⟩)) 0 0) []
  refine ⟨?_, by simp, ?_⟩
  · rw [ht]
    simpa using htl.trans hlen_zip
  · exact ir_render_loop_phi rel (bbs.zip (List.range' 0 bbs.length))
      (Builder.mk (bbs.map (fun bb => ⟨bb.name_hint, []⟩)) 0 0) [] i (bb, i) hh hzip
      k instr hin inc hphi hlive (by simpa using hpred)

/-- Witness for `c5_phi_uses_exit_blocks`: a two-block function whose first
block holds a safety-checked add (which appends overflow blocks, so the
block's exit handle differs from its entry handle) and whose second block
holds a phi with one incoming edge from block 0. -/
theorem c5_phi_uses_exit_blocks_witness :
    ([IrBasicBlock.mk "entry"
        [IrInstr.mk 1 false (IrOp.binOpAdd (NumType.int ⟨true, 32⟩) false true []
          (Val.reg 0) (Val.reg 1))],
      IrBasicBlock.mk "cont"
        [IrInstr.mk 1 false (IrOp.phi [(Val.reg 5, 0)])]] :
          List IrBasicBlock)[1]? =
      some (IrBasicBlock.mk "cont" [IrInstr.mk 1 false (IrOp.phi [(Val.reg 5, 0)])]) ∧
    (ir_render false
      [IrBasicBlock.mk "entry"
        [IrInstr.mk 1 false (IrOp.binOpAdd (NumType.int ⟨true, 32⟩) false true []
          (Val.reg 0) (Val.reg 1))],
       IrBasicBlock.mk "cont"
        [IrInstr.mk 1 false (IrOp.phi [(Val.reg 5, 0)])]]).2.length = 2 :=
  ⟨by decide,
   (c5_phi_uses_exit_blocks false
      [IrBasicBlock.mk "entry"
        [IrInstr.mk 1 false (IrOp.binOpAdd (NumType.int ⟨true, 32⟩) false true []
          (Val.reg 0) (Val.reg 1))],
       IrBasicBlock.mk "cont"
        [IrInstr.mk 1 false (IrOp.phi [(Val.reg 5, 0)])]]
      1 (IrBasicBlock.mk "cont" [IrInstr.mk 1 false (IrOp.phi [(Val.reg 5, 0)])])
      (by decide) 0 (IrInstr.mk 1 false (IrOp.phi [(Val.reg 5, 0)])) (by decide)
      [(Val.reg 5, 0)] (by decide) (by decide) (by decide)).1.trans (by decide)⟩

/-- **C6**.  With at least one declared error besides the implicit ok tag,
the emitted `err_name_table` global is a private constant unnamed-addr array
with exactly one element per entry of the error declaration list; element 0
is undef, and element `i ≥ 1` is a slice whose pointer field references the
private constant unnamed-addr unnamed global holding the `i`-th declared
error's name bytes and whose length field is that name's byte length. -/
theorem c6_error_name_table (module : List GlobalVar) (names : List Buf)
    (hne : names ≠ []) :
    generate_error_name_table true (none :: names.map some) module =
      (module ++ names.map (fun nm =>
          (⟨"", GlobalInit.strInit nm, Linkage.privateLinkage, true, true⟩ : GlobalVar)) ++
        [⟨"err_name_table",
          GlobalInit.errTable (ErrTableElem.undefElem ::
            errSlices module.length (names.map (fun nm => nm.length))),
          Linkage.privateLinkage, true, true⟩],
       some (module.length + names.length)) ∧
    (ErrTableElem.undefElem ::
        errSlices module.length (names.map (fun nm => nm.length))).length =
      (none :: names.map some).length ∧
    (ErrTableElem.undefElem ::
        errSlices module.length (names.map (fun nm => nm.length)))[0]? =
      some ErrTableElem.undefElem ∧
    ∀ i, i < names.length →
      (ErrTableElem.undefElem ::
          errSlices module.length (names.map (fun nm => nm.length)))[i + 1]? =
        names[i]?.map (fun nm => ErrTableElem.slice (module.length + i) nm.length) ∧
      (generate_error_name_table true (none :: names.map some) module).1[module.length + i]? =
        names[i]?.map (fun nm =>
          (⟨"", GlobalInit.strInit nm, Linkage.privateLinkage, true, true⟩ : GlobalVar)) := by
  have hlen : ¬(true = false ∨ (none :: names.map some).length = 1) := by
    simp [List.length_eq_zero, hne]
  have hmain : generate_error_name_table true (none :: names.map some) module =
      (module ++ names.map (fun nm =>
          (⟨"", GlobalInit.strInit nm, Linkage.privateLinkage, true, true⟩ : GlobalVar)) ++
        [⟨"err_name_table",
          GlobalInit.errTable (ErrTableElem.undefElem ::
            errSlices module.length (names.map (fun nm => nm.length))),
          Linkage.privateLinkage, true, true⟩],
       some (module.length + names.length)) := by
    rw [generate_error_name_table, if_neg hlen]
    rw [show (none :: names.map some).drop 1 = names.map some from rfl]
    rw [generate_error_name_table_loop_eq]
    simp only [List.map_map, List.append_assoc, List.length_append,
      List.length_map, Prod.mk.injEq]
    exact ⟨rfl, trivial⟩
  refine ⟨hmain, by simp [errSlices_length], by simp, ?_⟩
  intro i hi
  constructor
  · rw [List.getElem?_cons_succ, errSlices_getElem?]
    simp only [List.getElem?_map, Option.map_map]
    rfl
  · rw [hmain]
    have hge : module.length ≤ module.length + i := Nat.le_add_right _ _
    rw [show (module ++ names.map (fun nm =>
          (⟨"", GlobalInit.strInit nm, Linkage.privateLinkage, true, true⟩ : GlobalVar)) ++
        [(⟨"err_name_table",
          GlobalInit.errTable (ErrTableElem.undefElem ::
            errSlices module.length (names.map (fun nm => nm.length))),
          Linkage.privateLinkage, true, true⟩ : GlobalVar)],
       some (module.length + names.length)).1 =
       module ++ (names.map (fun nm =>
          (⟨"", GlobalInit.strInit nm, Linkage.privateLinkage, true, true⟩ : GlobalVar)) ++
        [(⟨"err_name_table",
          GlobalInit.errTable (ErrTableElem.undefElem ::
            errSlices module.length (names.map (fun nm => nm.length))),
          Linkage.privateLinkage, true, true⟩ : GlobalVar)]) by simp]
    rw [List.getElem?_append_right hge]
    simp [List.getElem?_append_left, hi, Nat.add_sub_cancel_left]

/-- Witness for `c6_error_name_table` with one declared error. -/
theorem c6_error_name_table_witness :
    ([[104, 105]] : List Buf) ≠ [] ∧
    (generate_error_name_table true (none :: ([[104, 105]] : List Buf).map some) []).2 =
      some 1 :=
  ⟨by decide, by rw [(c6_error_name_table [] [[104, 105]] (by decide)).1] <;> rfl⟩

/-- **C9**.  In a test build with a collected test-function count of zero,
the backend prints `No tests to run.` to stderr and exits with status 0; at
that moment no `zig_test_fn_list` global has been emitted and no function
definition has been generated. -/
theorem c9_no_tests_early_exit (fn_def_count : Nat) (st : ModuleState)
    (hnone : ∀ g ∈ st.globals, g.name ≠ "zig_test_fn_list")
    (hdefs : st.fn_defs_generated = 0) :
    ∃ e, do_code_gen_tail true 0 fn_def_count st = Except.error e ∧
      e.status = 0 ∧
      e.stderr_output = "No tests to run.\n" ∧
      (∀ g ∈ e.state_at_exit.globals, g.name ≠ "zig_test_fn_list") ∧
      e.state_at_exit.fn_defs_generated = 0 :=
  ⟨⟨0, "No tests to run.\n", st⟩, rfl, rfl, rfl, hnone, hdefs⟩

/-- Witness for `c9_no_tests_early_exit` at an empty module state. -/
theorem c9_no_tests_early_exit_witness :
    (∀ g ∈ (ModuleState.mk [] 0).globals, g.name ≠ "zig_test_fn_list") ∧
    (ModuleState.mk [] 0).fn_defs_generated = 0 ∧
    ∃ e, do_code_gen_tail true 0 5 (ModuleState.mk [] 0) = Except.error e ∧
      e.status = 0 ∧
      e.stderr_output = "No tests to run.\n" ∧
      (∀ g ∈ e.state_at_exit.globals, g.name ≠ "zig_test_fn_list") ∧
      e.state_at_exit.fn_defs_generated = 0 :=
  ⟨by simp, rfl, c9_no_tests_early_exit 5 (ModuleState.mk [] 0) (by simp) rfl⟩

/-- **C7**.  Targeting Darwin natively: when both `MACOSX_DEPLOYMENT_TARGET`
and `IPHONEOS_DEPLOYMENT_TARGET` are set, the iOS value is used (macOS
discarded) exactly for ARM/AArch64/Thumb and the macOS value for every other
architecture; when only one is set, that one is used. -/
theorem c7_darwin_deployment_target (arch : ZigArch) (o i : String) :
    (init_darwin_native arch (some o) (some i) =
      if arch = ZigArch.arm ∨ arch = ZigArch.aarch64 ∨ arch = ZigArch.thumb then
        (none, some i)
      else
        (some o, none)) ∧
    init_darwin_native arch (some o) none = (some o, none) ∧
    init_darwin_native arch none (some i) = (none, some i) := by
  refine ⟨?_, rfl, rfl⟩
  by_cases h : arch = ZigArch.arm ∨ arch = ZigArch.aarch64 ∨ arch = ZigArch.thumb <;>
    simp [init_darwin_native, h]

end Codegen
